import Mathlib

/-!
Verification of the SNS topic subscription resource and the SESV2 custom
verification email template resource of this Terraform provider.

The Go source is shallowly embedded: each Go function that a claim depends on
becomes a Lean definition of the same name (up to capitalisation), translated
clause by clause from `aws/resource_aws_sns_topic_subscription.go` and
`internal/service/sesv2/custom_verification_email_template_data_source.go`.
Go's `encoding/json` behaviour (Unmarshal into a tagged struct, Marshal with
omitempty, Compact) is modelled explicitly at the character level.
-/

namespace TfAws

/-! ## String helpers (model of Go `strings.Contains`) -/

/-- Does `l` start with `p`? (model of a prefix test on byte slices). -/
def listStartsWith : List Char → List Char → Bool
  | _, [] => true
  | [], _ :: _ => false
  | a :: as, b :: bs => a == b && listStartsWith as bs

/-- Is `needle` a contiguous substring of `hay`?  (`needle` starts at the
current position, or occurs in the tail.) -/
def listContainsSub : List Char → List Char → Bool
  | [], needle => listStartsWith [] needle
  | hay@(_ :: t), needle => listStartsWith hay needle || listContainsSub t needle

/-- Model of Go `strings.Contains s sub`. -/
def strContains (s sub : String) : Bool :=
  listContainsSub s.data sub.data

/-- Model of Go `strings.EqualFold` restricted to the simple per-character
lower-casing that suffices for the ASCII protocol names in the schema. -/
def strEqualFold (a b : String) : Bool :=
  a.data.map Char.toLower == b.data.map Char.toLower

/-! ## Create: confirmation-wait decision (`resourceAwsSnsTopicSubscriptionCreate`)

Lines 142–161 of the source.  After `Subscribe` succeeds the create function
decides whether to invoke `waiter.SubscriptionConfirmed` and with which
timeout.  The waiter package itself is not part of the sources, so the fixed
internal default timeout (`waiter.SubscriptionPendingConfirmationTimeout`) is
kept symbolic: a timeout is either that default or a caller-supplied number of
minutes. -/

/-- Timeout argument passed to the confirmation waiter: either the fixed
internal default from the waiter package, or
`confirmation_timeout_in_minutes` minutes. -/
inductive SnsWaitTimeout where
  | pendingConfirmationDefault
  | minutes (n : Nat)
deriving DecidableEq, Repr

/-- Straight-line translation of the wait decision in
`resourceAwsSnsTopicSubscriptionCreate`: returns `none` when polling is
skipped, and `some t` when `waiter.SubscriptionConfirmed` is invoked with
timeout `t`. -/
def snsCreateWaitDecision (protocol : String) (endpointAutoConfirms : Bool)
    (confirmationTimeoutInMinutes : Nat) : Option SnsWaitTimeout :=
  let waitForConfirmation := true
  let waitForConfirmation :=
    if !endpointAutoConfirms && strContains protocol "http" then false
    else waitForConfirmation
  let waitForConfirmation :=
    if strContains protocol "email" then false else waitForConfirmation
  let timeout := SnsWaitTimeout.pendingConfirmationDefault
  let timeout :=
    if strContains protocol "http" then
      SnsWaitTimeout.minutes confirmationTimeoutInMinutes
    else timeout
  if waitForConfirmation then some timeout else none

/-! ## Attribute codec (`expandSNSSubscriptionAttributes` and the `d.Set`
block of `resourceAwsSnsTopicSubscriptionRead`) -/

/-- The configurable attributes of an SNS topic subscription that
`expandSNSSubscriptionAttributes` reads from the resource data. -/
structure SnsSubscriptionConfig where
  delivery_policy : String := ""
  filter_policy : String := ""
  raw_message_delivery : Bool := false
  redrive_policy : String := ""
  subscription_role_arn : String := ""
deriving DecidableEq, Repr

/-- Attribute maps are modelled as association lists in the order the Go code
inserts the keys; lookups use the first match.  (The Go `map` is unordered,
but every consumer looks keys up by name, so the order is irrelevant.) -/
def AttributeMap := List (String × String)

/-- Lookup in an attribute map, `none` when the key is absent. -/
def attrLookup (m : List (String × String)) (k : String) : Option String :=
  match m with
  | [] => none
  | (k', v) :: t => if k' = k then some v else attrLookup t k

/-- Translation of `expandSNSSubscriptionAttributes`: assembles supplied
attributes into a single map — empty/default values are excluded. -/
def expandSNSSubscriptionAttributes (c : SnsSubscriptionConfig) :
    List (String × String) :=
  (if c.delivery_policy ≠ "" then [("DeliveryPolicy", c.delivery_policy)] else [])
  ++ (if c.filter_policy ≠ "" then [("FilterPolicy", c.filter_policy)] else [])
  ++ (if c.raw_message_delivery then [("RawMessageDelivery", "true")] else [])
  ++ (if c.subscription_role_arn ≠ "" then
        [("SubscriptionRoleArn", c.subscription_role_arn)] else [])
  ++ (if c.redrive_policy ≠ "" then [("RedrivePolicy", c.redrive_policy)] else [])

/-- The Terraform state fields written by
`resourceAwsSnsTopicSubscriptionRead`; fields the read function does not
`d.Set` keep their previous value. -/
structure SnsSubscriptionState where
  arn : String := ""
  delivery_policy : String := ""
  endpoint : String := ""
  filter_policy : String := ""
  owner_id : String := ""
  protocol : String := ""
  redrive_policy : String := ""
  topic_arn : String := ""
  confirmation_was_authenticated : Bool := false
  pending_confirmation : Bool := false
  raw_message_delivery : Bool := false
  subscription_role_arn : String := ""
deriving DecidableEq, Repr

/-- The `d.Set` block of `resourceAwsSnsTopicSubscriptionRead` (the inverse
half of the attribute codec): each listed state field is overwritten from the
attribute map, a missing key yielding the empty string; the three boolean
fields are set to `true` exactly when the key is present with value
`"true"`.  Note that the read function never sets `subscription_role_arn`,
so that field of the prior state passes through unchanged. -/
def snsSubscriptionAttributesDecode (attributes : List (String × String))
    (s : SnsSubscriptionState) : SnsSubscriptionState :=
  { s with
    arn := (attrLookup attributes "SubscriptionArn").getD ""
    delivery_policy := (attrLookup attributes "DeliveryPolicy").getD ""
    endpoint := (attrLookup attributes "Endpoint").getD ""
    filter_policy := (attrLookup attributes "FilterPolicy").getD ""
    owner_id := (attrLookup attributes "Owner").getD ""
    protocol := (attrLookup attributes "Protocol").getD ""
    redrive_policy := (attrLookup attributes "RedrivePolicy").getD ""
    topic_arn := (attrLookup attributes "TopicArn").getD ""
    confirmation_was_authenticated :=
      attrLookup attributes "ConfirmationWasAuthenticated" == some "true"
    pending_confirmation :=
      attrLookup attributes "PendingConfirmation" == some "true"
    raw_message_delivery :=
      attrLookup attributes "RawMessageDelivery" == some "true" }

/-! ## Read guard (`resourceAwsSnsTopicSubscriptionRead`, lines 166–216)

The remote call `GetSubscriptionAttributes` either fails with an AWS error
code or returns an attribute map.  The guard clears the stored identifier and
succeeds on a not-found error only when the resource is not freshly created;
otherwise any error is surfaced and the identifier is untouched. -/

/-- Outcome of a read: whether an error was returned, together with the
identifier and state as they stand afterwards (Terraform keeps both
unchanged when the read function returns an error without calling
`d.SetId`). -/
structure SnsReadOutcome where
  error : Option String := none
  id : String := ""
  state : SnsSubscriptionState := {}
deriving DecidableEq, Repr

/-- Translation of `resourceAwsSnsTopicSubscriptionRead`.  `remote` is the
result of `GetSubscriptionAttributes`: `.error code` for an AWS error with
the given code, `.ok attrs` for a successful response. -/
def resourceAwsSnsTopicSubscriptionRead (isNewResource : Bool) (id : String)
    (remote : Except String (List (String × String)))
    (s : SnsSubscriptionState) : SnsReadOutcome :=
  match remote with
  | .error code =>
    if !isNewResource && (code == "ResourceNotFound" || code == "NotFound") then
      { error := none, id := "", state := s }
    else
      { error := some code, id := id, state := s }
  | .ok attributes =>
    if attributes.isEmpty then
      { error := some "empty response", id := id, state := s }
    else
      { error := none, id := id,
        state := snsSubscriptionAttributesDecode attributes s }

/-! ## SESV2 custom verification email template read
(`FindCustomVerificationEmailTemplateByID` and
`resourceCustomVerificationEmailTemplateRead`) -/

/-- The fields of a `GetCustomVerificationEmailTemplateOutput` that the read
function copies into state. -/
structure CustomVerificationEmailTemplate where
  templateName : String := ""
  fromEmailAddress : String := ""
  templateSubject : String := ""
  templateContent : String := ""
  successRedirectionURL : String := ""
  failureRedirectionURL : String := ""
deriving DecidableEq, Repr

/-- Error classification produced by
`FindCustomVerificationEmailTemplateByID`: a `types.NotFoundException` from
the SDK is rewrapped as a `resource.NotFoundError`, a non-nil error of any
other kind passes through, and a nil output becomes an empty-result error. -/
inductive Sesv2FindError where
  | notFound
  | emptyResult
  | other (msg : String)
deriving DecidableEq, Repr

/-- The raw result of `GetCustomVerificationEmailTemplate`: an error that is
or is not a `types.NotFoundException`, or an optional (possibly nil)
output. -/
inductive Sesv2ApiResult where
  | notFoundException
  | otherError (msg : String)
  | output (t : Option CustomVerificationEmailTemplate)
deriving DecidableEq, Repr

/-- Translation of `FindCustomVerificationEmailTemplateByID`. -/
def FindCustomVerificationEmailTemplateByID (remote : Sesv2ApiResult) :
    Except Sesv2FindError CustomVerificationEmailTemplate :=
  match remote with
  | .notFoundException => .error .notFound
  | .otherError msg => .error (.other msg)
  | .output none => .error .emptyResult
  | .output (some t) => .ok t

/-- Terraform state of the custom verification email template resource. -/
structure Sesv2TemplateState where
  template_name : String := ""
  from_email_address : String := ""
  template_subject : String := ""
  template_content : String := ""
  success_redirection_url : String := ""
  failure_redirection_url : String := ""
deriving DecidableEq, Repr

/-- Outcome of the SESV2 template read, mirroring `SnsReadOutcome`. -/
structure Sesv2ReadOutcome where
  error : Option Sesv2FindError := none
  id : String := ""
  state : Sesv2TemplateState := {}
deriving DecidableEq, Repr

/-- Translation of `resourceCustomVerificationEmailTemplateRead`: the find
result is `tfresource.NotFound` exactly when it is the rewrapped
`resource.NotFoundError`; that case clears the identifier and succeeds
unless the resource is freshly created. -/
def resourceCustomVerificationEmailTemplateRead (isNewResource : Bool)
    (id : String) (remote : Sesv2ApiResult) (s : Sesv2TemplateState) :
    Sesv2ReadOutcome :=
  match FindCustomVerificationEmailTemplateByID remote with
  | .error e =>
    if !isNewResource && e == .notFound then
      { error := none, id := "", state := s }
    else
      { error := some e, id := id, state := s }
  | .ok out =>
    { error := none, id := id,
      state := { s with
        template_name := id
        from_email_address := out.fromEmailAddress
        template_subject := out.templateSubject
        template_content := out.templateContent
        success_redirection_url := out.successRedirectionURL
        failure_redirection_url := out.failureRedirectionURL } }

/-! ## Attribute updater (`snsSubscriptionAttributeUpdate`, lines 321–340) -/

/-- The `SetSubscriptionAttributes` request assembled by
`snsSubscriptionAttributeUpdate`; `attributeValue = none` models a nil
(absent/null) `AttributeValue` pointer. -/
structure SnsSetAttributeRequest where
  subscriptionArn : String
  attributeName : String
  attributeValue : Option String
deriving DecidableEq, Repr

/-- Translation of the request construction in
`snsSubscriptionAttributeUpdate`: the value is sent as supplied, except that
a `RedrivePolicy` attribute with empty value is sent as nil. -/
def snsSubscriptionAttributeUpdate (subscriptionArn attributeName attributeValue :
    String) : SnsSetAttributeRequest :=
  let req : SnsSetAttributeRequest :=
    { subscriptionArn := subscriptionArn
      attributeName := attributeName
      attributeValue := some attributeValue }
  if attributeName = "RedrivePolicy" ∧ attributeValue = "" then
    { req with attributeValue := none }
  else req

/-! ## Update path (`resourceAwsSnsTopicSubscriptionUpdate`, lines 218–268)

The update function walks the changed attributes in a fixed order, issuing
one `SetSubscriptionAttributes` call per changed attribute and aborting on
the first error.  The subscription-role block validates the role/protocol
combination before issuing its remote call.  The model returns the list of
remote requests issued (assuming each remote call succeeds, as remote
failures are the host's concern) together with the validation error, if any,
at which the function returned early.  The final re-read is outside this
model. -/

/-- Which attributes `d.HasChange` reports as changed. -/
structure SnsUpdateChanges where
  raw_message_delivery : Bool := false
  filter_policy : Bool := false
  delivery_policy : Bool := false
  subscription_role_arn : Bool := false
  redrive_policy : Bool := false
deriving DecidableEq, Repr

/-- Translation of `resourceAwsSnsTopicSubscriptionUpdate` (up to the final
read): the issued requests in order, and the error the function returned
early with, if any. -/
def resourceAwsSnsTopicSubscriptionUpdate (id : String) (protocol : String)
    (ch : SnsUpdateChanges) (c : SnsSubscriptionConfig) :
    List SnsSetAttributeRequest × Option String :=
  let calls : List SnsSetAttributeRequest :=
    (if ch.raw_message_delivery then
      [snsSubscriptionAttributeUpdate id "RawMessageDelivery"
        (if c.raw_message_delivery then "true" else "false")]
    else [])
    ++ (if ch.filter_policy then
      [snsSubscriptionAttributeUpdate id "FilterPolicy"
        (if c.filter_policy = "" then "\x7b\x7d" else c.filter_policy)]
    else [])
    ++ (if ch.delivery_policy then
      [snsSubscriptionAttributeUpdate id "DeliveryPolicy" c.delivery_policy]
    else [])
  if ch.subscription_role_arn then
    if strContains protocol "firehose" ∧ c.subscription_role_arn = "" then
      (calls, some "Protocol firehose must contain subscription_role_arn!")
    else if ¬ strContains protocol "firehose" ∧ c.subscription_role_arn ≠ "" then
      (calls, some "Only protocol firehose supports subscription_role_arn!")
    else
      (calls
        ++ [snsSubscriptionAttributeUpdate id "SubscriptionRoleArn"
              c.subscription_role_arn]
        ++ (if ch.redrive_policy then
              [snsSubscriptionAttributeUpdate id "RedrivePolicy" c.redrive_policy]
            else []), none)
  else
    (calls
      ++ (if ch.redrive_policy then
            [snsSubscriptionAttributeUpdate id "RedrivePolicy" c.redrive_policy]
          else []), none)

/-- The protocol values accepted by the schema's `ValidateFunc`
(`validation.StringInSlice` with `ignoreCase = true`). -/
def snsProtocolValues : List String :=
  ["application", "email-json", "email", "firehose", "http", "https",
   "lambda", "sms", "sqs"]

/-- Schema validation of the `protocol` attribute: case-insensitive
membership in `snsProtocolValues`. -/
def snsProtocolIsValid (p : String) : Bool :=
  snsProtocolValues.any (fun v => strEqualFold p v)

/-! ## JSON model (Go `encoding/json`)

The delivery-policy diff suppression uses `json.Unmarshal` into a tagged
struct, `json.Marshal` (with `omitempty` on every field) and `json.Compact`.
These are modelled at the character level: `parseJson` accepts exactly the
JSON grammar the Go scanner accepts (including string escapes with surrogate
pairs and the full number grammar), `serVal` reproduces Go's encoder output
for the values the marshaller emits, and `compactChars` strips insignificant
whitespace outside string literals. -/

/-- A parsed JSON value.  A number records whether its literal was a plain
(optionally signed) integer — only such literals unmarshal into Go `int`
fields — and, when it was, its value. -/
inductive Json where
  | null
  | bool (b : Bool)
  | num (isInt : Bool) (i : Int)
  | str (s : String)
  | arr (elems : List Json)
  | obj (fields : List (String × Json))

/-- The whitespace characters insignificant in JSON (Go scanner: space, tab,
newline, carriage return). -/
def isJsonWs (c : Char) : Bool :=
  c == ' ' || c == '\t' || c == '\n' || c == '\r'

/-- Drop leading JSON whitespace. -/
def skipWs : List Char → List Char
  | [] => []
  | c :: t => if isJsonWs c then skipWs t else c :: t

/-- Value of a hexadecimal digit, as in Go's `getu4`. -/
def hexDigitVal (c : Char) : Option Nat :=
  if '0' ≤ c ∧ c ≤ '9' then some (c.toNat - 48)
  else if 'a' ≤ c ∧ c ≤ 'f' then some (c.toNat - 87)
  else if 'A' ≤ c ∧ c ≤ 'F' then some (c.toNat - 55)
  else none

/-- Value of a `\uXXXX` escape's four hexadecimal digits. -/
def hexQuad (h1 h2 h3 h4 : Char) : Option Nat :=
  match hexDigitVal h1, hexDigitVal h2, hexDigitVal h3, hexDigitVal h4 with
  | some a, some b, some c, some d => some (((a * 16 + b) * 16 + c) * 16 + d)
  | _, _, _, _ => none

/-- Parse the body of a JSON string (after the opening quote) up to and
including the closing quote, returning the decoded characters and the rest
of the input.  Mirrors Go's `unquoteChar`: the simple escapes, `\uXXXX`
with surrogate-pair combination, lone surrogates replaced by U+FFFD, and
unescaped control characters rejected.  The fuel argument decreases on every
step and always exceeds the number of characters consumed. -/
def pStrChars : Nat → List Char → Option (List Char × List Char)
  | 0, _ => none
  | _ + 1, [] => none
  | fuel + 1, c :: t =>
    if c = '"' then some ([], t)
    else if c = '\\' then
      match t with
      | [] => none
      | e :: t2 =>
        if e = '"' ∨ e = '\\' ∨ e = '/' then
          (pStrChars fuel t2).map (fun r => (e :: r.1, r.2))
        else if e = 'b' then
          (pStrChars fuel t2).map (fun r => (Char.ofNat 8 :: r.1, r.2))
        else if e = 'f' then
          (pStrChars fuel t2).map (fun r => (Char.ofNat 12 :: r.1, r.2))
        else if e = 'n' then
          (pStrChars fuel t2).map (fun r => ('\n' :: r.1, r.2))
        else if e = 'r' then
          (pStrChars fuel t2).map (fun r => ('\r' :: r.1, r.2))
        else if e = 't' then
          (pStrChars fuel t2).map (fun r => ('\t' :: r.1, r.2))
        else if e = 'u' then
          match t2 with
          | h1 :: h2 :: h3 :: h4 :: t3 =>
            match hexQuad h1 h2 h3 h4 with
            | none => none
            | some n =>
              if 0xD800 ≤ n ∧ n < 0xDC00 then
                match t3 with
                | '\\' :: 'u' :: k1 :: k2 :: k3 :: k4 :: t4 =>
                  match hexQuad k1 k2 k3 k4 with
                  | some m =>
                    if 0xDC00 ≤ m ∧ m < 0xE000 then
                      (pStrChars fuel t4).map (fun r =>
                        (Char.ofNat (0x10000 + (n - 0xD800) * 0x400 + (m - 0xDC00))
                          :: r.1, r.2))
                    else
                      (pStrChars fuel t3).map (fun r =>
                        (Char.ofNat 0xFFFD :: r.1, r.2))
                  | none =>
                    (pStrChars fuel t3).map (fun r =>
                      (Char.ofNat 0xFFFD :: r.1, r.2))
                | _ =>
                  (pStrChars fuel t3).map (fun r =>
                    (Char.ofNat 0xFFFD :: r.1, r.2))
              else if 0xDC00 ≤ n ∧ n < 0xE000 then
                (pStrChars fuel t3).map (fun r =>
                  (Char.ofNat 0xFFFD :: r.1, r.2))
              else
                (pStrChars fuel t3).map (fun r => (Char.ofNat n :: r.1, r.2))
          | _ => none
        else none
    else if c.toNat < 0x20 then none
    else (pStrChars fuel t).map (fun r => (c :: r.1, r.2))

/-- Numeric value of a decimal digit character. -/
def digitVal (c : Char) : Nat := c.toNat - 48

/-- Value of a big-endian run of decimal digit characters. -/
def digitsToNat (l : List Char) : Nat :=
  l.foldl (fun a c => 10 * a + digitVal c) 0

/-- Drop the optional sign of an exponent part. -/
def pExpSign : List Char → List Char
  | '+' :: u => u
  | '-' :: u => u
  | t => t

/-- Parse an optional exponent part (`e`/`E`, optional sign, at least one
digit); `none` when the input does not start with a well-formed exponent. -/
def pExpPart (cs : List Char) : Option (List Char) :=
  match cs with
  | c :: t =>
    if c = 'e' ∨ c = 'E' then
      match (pExpSign t).takeWhile Char.isDigit with
      | [] => none
      | _ :: _ => some ((pExpSign t).dropWhile Char.isDigit)
    else none
  | [] => none

/-- Continuation of a number literal after a decimal point: at least one
fraction digit, then an optional exponent; the literal is no longer a plain
integer. -/
def pNumFrac (r2 : List Char) : Option (Json × List Char) :=
  match r2.takeWhile Char.isDigit with
  | [] => none
  | _ :: _ =>
    match pExpPart (r2.dropWhile Char.isDigit) with
    | some r4 => some (Json.num false 0, r4)
    | none => some (Json.num false 0, r2.dropWhile Char.isDigit)

/-- Continuation of an integer literal: an optional exponent (which makes it
non-plain), otherwise the signed value of the collected digits. -/
def pNumInt (neg : Bool) (intDigits rest1 : List Char) :
    Option (Json × List Char) :=
  match pExpPart rest1 with
  | some r4 => some (Json.num false 0, r4)
  | none =>
    some (Json.num true (if neg then -(digitsToNat intDigits : Int)
                         else (digitsToNat intDigits : Int)), rest1)

/-- Continuation of a number literal after the integer part: a fraction, or
an integer continuation. -/
def pNumTail (neg : Bool) (intDigits : List Char) :
    List Char → Option (Json × List Char)
  | c :: r2 =>
    if c = '.' then pNumFrac r2 else pNumInt neg intDigits (c :: r2)
  | [] => pNumInt neg intDigits []

/-- Parse a JSON number literal after the optional minus sign: an integer
part with no leading zero, then optional fraction and exponent.  A literal
with a fraction or exponent is recorded with `isInt = false` (Go refuses to
unmarshal such a literal into an `int` field). -/
def pNumBody (neg : Bool) (cs : List Char) : Option (Json × List Char) :=
  match cs with
  | [] => none
  | c :: t =>
    if ¬ c.isDigit then none
    else if c = '0' then pNumTail neg [c] t
    else pNumTail neg (c :: t.takeWhile Char.isDigit) (t.dropWhile Char.isDigit)

/-- Parse a JSON number literal: an optional minus sign then `pNumBody`. -/
def pNum (cs : List Char) : Option (Json × List Char) :=
  match cs with
  | '-' :: t => pNumBody true t
  | _ => pNumBody false cs

mutual

/-- Parse one JSON value (after skipping leading whitespace), returning it
with the unconsumed rest of the input. -/
def pVal : Nat → List Char → Option (Json × List Char)
  | 0, _ => none
  | fuel + 1, cs =>
    match skipWs cs with
    | [] => none
    | c :: t =>
      if c = '{' then
        match skipWs t with
        | '}' :: r => some (.obj [], r)
        | _ =>
          match pFieldsNext fuel t with
          | some (kvs, r) => some (.obj kvs, r)
          | none => none
      else if c = '[' then
        match skipWs t with
        | ']' :: r => some (.arr [], r)
        | _ =>
          match pElemsNext fuel t with
          | some (vs, r) => some (.arr vs, r)
          | none => none
      else if c = '"' then
        match pStrChars fuel t with
        | some (l, r) => some (.str (String.mk l), r)
        | none => none
      else if c = 't' then
        match t with
        | 'r' :: 'u' :: 'e' :: r => some (.bool true, r)
        | _ => none
      else if c = 'f' then
        match t with
        | 'a' :: 'l' :: 's' :: 'e' :: r => some (.bool false, r)
        | _ => none
      else if c = 'n' then
        match t with
        | 'u' :: 'l' :: 'l' :: r => some (.null, r)
        | _ => none
      else pNum (c :: t)

/-- Parse the fields of an object from just after `{` or `,`: a quoted key,
a colon, a value, then either `,` and more fields or the closing `}`. -/
def pFieldsNext : Nat → List Char → Option (List (String × Json) × List Char)
  | 0, _ => none
  | fuel + 1, cs =>
    match skipWs cs with
    | '"' :: t =>
      match pStrChars fuel t with
      | some (k, r1) =>
        match skipWs r1 with
        | ':' :: r2 =>
          match pVal fuel r2 with
          | some (v, r3) =>
            match skipWs r3 with
            | ',' :: r4 =>
              match pFieldsNext fuel r4 with
              | some (kvs, r) => some ((String.mk k, v) :: kvs, r)
              | none => none
            | '}' :: r4 => some ([(String.mk k, v)], r4)
            | _ => none
          | none => none
        | _ => none
      | none => none
    | _ => none

/-- Parse the elements of an array from just after `[` or `,`. -/
def pElemsNext : Nat → List Char → Option (List Json × List Char)
  | 0, _ => none
  | fuel + 1, cs =>
    match pVal fuel cs with
    | some (v, r1) =>
      match skipWs r1 with
      | ',' :: r2 =>
        match pElemsNext fuel r2 with
        | some (vs, r) => some (v :: vs, r)
        | none => none
      | ']' :: r2 => some ([v], r2)
      | _ => none
    | none => none

end

/-- Parse a complete JSON text: one value with only whitespace around it.
One unit of fuel per input character plus one is always sufficient, since
every fuel-consuming step is matched by at least one character of input. -/
def parseJson (s : String) : Option Json :=
  match pVal (s.data.length + 1) s.data with
  | some (j, rest) => if (skipWs rest).isEmpty then some j else none
  | none => none

/-! ### Encoding (Go `json.Marshal` output format) -/

/-- Lower-case hexadecimal digit, as in Go's encoder table. -/
def hexDigitChar (n : Nat) : Char :=
  if n < 10 then Char.ofNat (48 + n) else Char.ofNat (87 + n)

/-- Escape one character the way Go's encoder (with the default HTML
escaping) writes it inside a string literal: quote, backslash, the newline /
carriage-return / tab shorthands, `\u00XX` for remaining control characters,
`<`, `>`, `&` for the HTML-sensitive characters, `\u2028` / `\u2029`
for the Unicode line separators, and the character itself otherwise. -/
def escChar (c : Char) : List Char :=
  if c = '"' then ['\\', '"']
  else if c = '\\' then ['\\', '\\']
  else if c = '\n' then ['\\', 'n']
  else if c = '\r' then ['\\', 'r']
  else if c = '\t' then ['\\', 't']
  else if c.toNat < 0x20 then
    ['\\', 'u', '0', '0', hexDigitChar (c.toNat / 16), hexDigitChar (c.toNat % 16)]
  else if c = '<' then ['\\', 'u', '0', '0', '3', 'c']
  else if c = '>' then ['\\', 'u', '0', '0', '3', 'e']
  else if c = '&' then ['\\', 'u', '0', '0', '2', '6']
  else if c.toNat = 0x2028 then ['\\', 'u', '2', '0', '2', '8']
  else if c.toNat = 0x2029 then ['\\', 'u', '2', '0', '2', '9']
  else [c]

/-- Escape a run of characters. -/
def escChars : List Char → List Char
  | [] => []
  | c :: t => escChar c ++ escChars t

/-- A quoted, escaped JSON string literal. -/
def serStrChars (s : String) : List Char :=
  '"' :: (escChars s.data ++ ['"'])

/-- The character for a decimal digit value. -/
def digitChar (d : Nat) : Char := Char.ofNat (48 + d)

/-- Big-endian decimal digit characters of a natural number. -/
def natDigitChars (n : Nat) : List Char :=
  if n = 0 then ['0']
  else (Nat.digits 10 n).reverse.map digitChar

/-- Decimal rendering of an integer, as Go formats an `int`. -/
def serIntChars (i : Int) : List Char :=
  if i < 0 then '-' :: natDigitChars i.natAbs else natDigitChars i.toNat

mutual

/-- Serialize a JSON value in Go's compact encoder format. -/
def serVal : Json → List Char
  | .num _ i => serIntChars i
  | .str s => serStrChars s
  | .null => "null".data
  | .bool b => (if b then "true" else "false").data
  | .arr vs => '[' :: (serElems vs ++ [']'])
  | .obj kvs => '{' :: (serFields kvs ++ ['}'])

/-- Comma-separated serialized array elements. -/
def serElems : List Json → List Char
  | [] => []
  | [v] => serVal v
  | v :: v2 :: t => serVal v ++ ',' :: serElems (v2 :: t)

/-- Comma-separated serialized object fields. -/
def serFields : List (String × Json) → List Char
  | [] => []
  | [(k, v)] => serStrChars k ++ ':' :: serVal v
  | (k, v) :: kv2 :: t =>
    serStrChars k ++ ':' :: serVal v ++ ',' :: serFields (kv2 :: t)

end

/-! ### The delivery-policy schema (lines 342–407 of the source) -/

/-- The smallest and largest values of Go's 64-bit `int`. -/
def int64Min : Int := -(2 ^ 63)

/-- See `int64Min`. -/
def int64Max : Int := 2 ^ 63 - 1

/-- Whether a parsed integer literal fits Go's `int` (unmarshalling a larger
literal into an `int` field is an error). -/
def intFitsInt64 (i : Int) : Bool :=
  decide (int64Min ≤ i ∧ i ≤ int64Max)

/-- Go struct `snsTopicSubscriptionDeliveryPolicyHealthyRetryPolicy`; every
field is tagged `omitempty`. -/
structure snsTopicSubscriptionDeliveryPolicyHealthyRetryPolicy where
  BackoffFunction : String := ""
  MaxDelayTarget : Int := 0
  MinDelayTarget : Int := 0
  NumMaxDelayRetries : Int := 0
  NumMinDelayRetries : Int := 0
  NumNoDelayRetries : Int := 0
  NumRetries : Int := 0
deriving DecidableEq, Repr

/-- Go struct `snsTopicSubscriptionDeliveryPolicySicklyRetryPolicy`;
field-for-field identical to the healthy retry policy. -/
structure snsTopicSubscriptionDeliveryPolicySicklyRetryPolicy where
  BackoffFunction : String := ""
  MaxDelayTarget : Int := 0
  MinDelayTarget : Int := 0
  NumMaxDelayRetries : Int := 0
  NumMinDelayRetries : Int := 0
  NumNoDelayRetries : Int := 0
  NumRetries : Int := 0
deriving DecidableEq, Repr

/-- Go struct `snsTopicSubscriptionDeliveryPolicyThrottlePolicy`. -/
structure snsTopicSubscriptionDeliveryPolicyThrottlePolicy where
  MaxReceivesPerSecond : Int := 0
deriving DecidableEq, Repr

/-- Go struct `snsTopicSubscriptionDeliveryPolicy`; the three nested policies
are pointers (`none` models a nil pointer). -/
structure snsTopicSubscriptionDeliveryPolicy where
  Guaranteed : Bool := false
  HealthyRetryPolicy :
    Option snsTopicSubscriptionDeliveryPolicyHealthyRetryPolicy := none
  SicklyRetryPolicy :
    Option snsTopicSubscriptionDeliveryPolicySicklyRetryPolicy := none
  ThrottlePolicy :
    Option snsTopicSubscriptionDeliveryPolicyThrottlePolicy := none
deriving DecidableEq, Repr

/-- Unmarshal a JSON value into a Go `int` field: `some (some i)` assigns
`i`, `some none` is the no-op for a JSON `null`, `none` is a type (or
overflow) error. -/
def jsonIntValue : Json → Option (Option Int)
  | .num true i => if intFitsInt64 i then some (some i) else none
  | .null => some none
  | _ => none

/-- Unmarshal a JSON value into a Go `string` field (same conventions as
`jsonIntValue`). -/
def jsonStrValue : Json → Option (Option String)
  | .str s => some (some s)
  | .null => some none
  | _ => none

/-- Unmarshal a JSON value into a Go `bool` field (same conventions as
`jsonIntValue`). -/
def jsonBoolValue : Json → Option (Option Bool)
  | .bool b => some (some b)
  | .null => some none
  | _ => none

/-- Process one object field during unmarshalling of a healthy retry policy.
Go matches keys case-insensitively (the tags are pairwise case-insensitively
distinct, so exact-match-first makes no difference); unknown keys are
ignored. -/
def decodeHealthyField (p : snsTopicSubscriptionDeliveryPolicyHealthyRetryPolicy)
    (k : String) (v : Json) :
    Option snsTopicSubscriptionDeliveryPolicyHealthyRetryPolicy :=
  if strEqualFold k "backoffFunction" then
    (jsonStrValue v).map (fun o => match o with
      | some s => { p with BackoffFunction := s }
      | none => p)
  else if strEqualFold k "maxDelayTarget" then
    (jsonIntValue v).map (fun o => match o with
      | some i => { p with MaxDelayTarget := i }
      | none => p)
  else if strEqualFold k "minDelayTarget" then
    (jsonIntValue v).map (fun o => match o with
      | some i => { p with MinDelayTarget := i }
      | none => p)
  else if strEqualFold k "numMaxDelayRetries" then
    (jsonIntValue v).map (fun o => match o with
      | some i => { p with NumMaxDelayRetries := i }
      | none => p)
  else if strEqualFold k "numMinDelayRetries" then
    (jsonIntValue v).map (fun o => match o with
      | some i => { p with NumMinDelayRetries := i }
      | none => p)
  else if strEqualFold k "numNoDelayRetries" then
    (jsonIntValue v).map (fun o => match o with
      | some i => { p with NumNoDelayRetries := i }
      | none => p)
  else if strEqualFold k "numRetries" then
    (jsonIntValue v).map (fun o => match o with
      | some i => { p with NumRetries := i }
      | none => p)
  else some p

/-- Fold `decodeHealthyField` over the fields of an object in order. -/
def decodeHealthyFields (kvs : List (String × Json))
    (p : snsTopicSubscriptionDeliveryPolicyHealthyRetryPolicy) :
    Option snsTopicSubscriptionDeliveryPolicyHealthyRetryPolicy :=
  match kvs with
  | [] => some p
  | (k, v) :: t =>
    match decodeHealthyField p k v with
    | some p' => decodeHealthyFields t p'
    | none => none

/-- Process one object field during unmarshalling of a sickly retry policy
(same tags as the healthy retry policy). -/
def decodeSicklyField (p : snsTopicSubscriptionDeliveryPolicySicklyRetryPolicy)
    (k : String) (v : Json) :
    Option snsTopicSubscriptionDeliveryPolicySicklyRetryPolicy :=
  if strEqualFold k "backoffFunction" then
    (jsonStrValue v).map (fun o => match o with
      | some s => { p with BackoffFunction := s }
      | none => p)
  else if strEqualFold k "maxDelayTarget" then
    (jsonIntValue v).map (fun o => match o with
      | some i => { p with MaxDelayTarget := i }
      | none => p)
  else if strEqualFold k "minDelayTarget" then
    (jsonIntValue v).map (fun o => match o with
      | some i => { p with MinDelayTarget := i }
      | none => p)
  else if strEqualFold k "numMaxDelayRetries" then
    (jsonIntValue v).map (fun o => match o with
      | some i => { p with NumMaxDelayRetries := i }
      | none => p)
  else if strEqualFold k "numMinDelayRetries" then
    (jsonIntValue v).map (fun o => match o with
      | some i => { p with NumMinDelayRetries := i }
      | none => p)
  else if strEqualFold k "numNoDelayRetries" then
    (jsonIntValue v).map (fun o => match o with
      | some i => { p with NumNoDelayRetries := i }
      | none => p)
  else if strEqualFold k "numRetries" then
    (jsonIntValue v).map (fun o => match o with
      | some i => { p with NumRetries := i }
      | none => p)
  else some p

/-- Fold `decodeSicklyField` over the fields of an object in order. -/
def decodeSicklyFields (kvs : List (String × Json))
    (p : snsTopicSubscriptionDeliveryPolicySicklyRetryPolicy) :
    Option snsTopicSubscriptionDeliveryPolicySicklyRetryPolicy :=
  match kvs with
  | [] => some p
  | (k, v) :: t =>
    match decodeSicklyField p k v with
    | some p' => decodeSicklyFields t p'
    | none => none

/-- Process one object field during unmarshalling of a throttle policy. -/
def decodeThrottleField (p : snsTopicSubscriptionDeliveryPolicyThrottlePolicy)
    (k : String) (v : Json) :
    Option snsTopicSubscriptionDeliveryPolicyThrottlePolicy :=
  if strEqualFold k "maxReceivesPerSecond" then
    (jsonIntValue v).map (fun o => match o with
      | some i => { p with MaxReceivesPerSecond := i }
      | none => p)
  else some p

/-- Fold `decodeThrottleField` over the fields of an object in order. -/
def decodeThrottleFields (kvs : List (String × Json))
    (p : snsTopicSubscriptionDeliveryPolicyThrottlePolicy) :
    Option snsTopicSubscriptionDeliveryPolicyThrottlePolicy :=
  match kvs with
  | [] => some p
  | (k, v) :: t =>
    match decodeThrottleField p k v with
    | some p' => decodeThrottleFields t p'
    | none => none

/-- Unmarshal a JSON value into a pointer-to-healthy-retry-policy field: a
JSON `null` sets the pointer to nil, an object unmarshals into the existing
pointee (or a fresh zero value for a nil pointer), anything else is an
error. -/
def decodeHealthyPtr
    (cur : Option snsTopicSubscriptionDeliveryPolicyHealthyRetryPolicy) :
    Json → Option (Option snsTopicSubscriptionDeliveryPolicyHealthyRetryPolicy)
  | .null => some none
  | .obj kvs => (decodeHealthyFields kvs (cur.getD {})).map some
  | _ => none

/-- See `decodeHealthyPtr`. -/
def decodeSicklyPtr
    (cur : Option snsTopicSubscriptionDeliveryPolicySicklyRetryPolicy) :
    Json → Option (Option snsTopicSubscriptionDeliveryPolicySicklyRetryPolicy)
  | .null => some none
  | .obj kvs => (decodeSicklyFields kvs (cur.getD {})).map some
  | _ => none

/-- See `decodeHealthyPtr`. -/
def decodeThrottlePtr
    (cur : Option snsTopicSubscriptionDeliveryPolicyThrottlePolicy) :
    Json → Option (Option snsTopicSubscriptionDeliveryPolicyThrottlePolicy)
  | .null => some none
  | .obj kvs => (decodeThrottleFields kvs (cur.getD {})).map some
  | _ => none

/-- Process one object field during unmarshalling of the delivery policy. -/
def decodeDeliveryField (p : snsTopicSubscriptionDeliveryPolicy) (k : String)
    (v : Json) : Option snsTopicSubscriptionDeliveryPolicy :=
  if strEqualFold k "guaranteed" then
    (jsonBoolValue v).map (fun o => match o with
      | some b => { p with Guaranteed := b }
      | none => p)
  else if strEqualFold k "healthyRetryPolicy" then
    (decodeHealthyPtr p.HealthyRetryPolicy v).map
      (fun o => { p with HealthyRetryPolicy := o })
  else if strEqualFold k "sicklyRetryPolicy" then
    (decodeSicklyPtr p.SicklyRetryPolicy v).map
      (fun o => { p with SicklyRetryPolicy := o })
  else if strEqualFold k "throttlePolicy" then
    (decodeThrottlePtr p.ThrottlePolicy v).map
      (fun o => { p with ThrottlePolicy := o })
  else some p

/-- Fold `decodeDeliveryField` over the fields of an object in order. -/
def decodeDeliveryFields (kvs : List (String × Json))
    (p : snsTopicSubscriptionDeliveryPolicy) :
    Option snsTopicSubscriptionDeliveryPolicy :=
  match kvs with
  | [] => some p
  | (k, v) :: t =>
    match decodeDeliveryField p k v with
    | some p' => decodeDeliveryFields t p'
    | none => none

/-- `json.Unmarshal` of a parsed JSON value into a fresh
`snsTopicSubscriptionDeliveryPolicy`: the top-level value must be an object
(filled field by field) or `null` (which leaves the zero value). -/
def snsDeliveryPolicyUnmarshal (j : Json) :
    Option snsTopicSubscriptionDeliveryPolicy :=
  match j with
  | .null => some {}
  | .obj kvs => decodeDeliveryFields kvs {}
  | _ => none

/-! ### Marshal (struct → JSON, `omitempty` on every field) -/

/-- The fields `json.Marshal` emits for a healthy retry policy, in struct
declaration order; a field equal to its zero value is omitted. -/
def healthyFieldsJson (h : snsTopicSubscriptionDeliveryPolicyHealthyRetryPolicy) :
    List (String × Json) :=
  (if h.BackoffFunction ≠ "" then [("backoffFunction", Json.str h.BackoffFunction)]
   else [])
  ++ (if h.MaxDelayTarget ≠ 0 then [("maxDelayTarget", Json.num true h.MaxDelayTarget)]
      else [])
  ++ (if h.MinDelayTarget ≠ 0 then [("minDelayTarget", Json.num true h.MinDelayTarget)]
      else [])
  ++ (if h.NumMaxDelayRetries ≠ 0 then
        [("numMaxDelayRetries", Json.num true h.NumMaxDelayRetries)] else [])
  ++ (if h.NumMinDelayRetries ≠ 0 then
        [("numMinDelayRetries", Json.num true h.NumMinDelayRetries)] else [])
  ++ (if h.NumNoDelayRetries ≠ 0 then
        [("numNoDelayRetries", Json.num true h.NumNoDelayRetries)] else [])
  ++ (if h.NumRetries ≠ 0 then [("numRetries", Json.num true h.NumRetries)] else [])

/-- The fields `json.Marshal` emits for a sickly retry policy. -/
def sicklyFieldsJson (h : snsTopicSubscriptionDeliveryPolicySicklyRetryPolicy) :
    List (String × Json) :=
  (if h.BackoffFunction ≠ "" then [("backoffFunction", Json.str h.BackoffFunction)]
   else [])
  ++ (if h.MaxDelayTarget ≠ 0 then [("maxDelayTarget", Json.num true h.MaxDelayTarget)]
      else [])
  ++ (if h.MinDelayTarget ≠ 0 then [("minDelayTarget", Json.num true h.MinDelayTarget)]
      else [])
  ++ (if h.NumMaxDelayRetries ≠ 0 then
        [("numMaxDelayRetries", Json.num true h.NumMaxDelayRetries)] else [])
  ++ (if h.NumMinDelayRetries ≠ 0 then
        [("numMinDelayRetries", Json.num true h.NumMinDelayRetries)] else [])
  ++ (if h.NumNoDelayRetries ≠ 0 then
        [("numNoDelayRetries", Json.num true h.NumNoDelayRetries)] else [])
  ++ (if h.NumRetries ≠ 0 then [("numRetries", Json.num true h.NumRetries)] else [])

/-- The fields `json.Marshal` emits for a throttle policy. -/
def throttleFieldsJson (h : snsTopicSubscriptionDeliveryPolicyThrottlePolicy) :
    List (String × Json) :=
  if h.MaxReceivesPerSecond ≠ 0 then
    [("maxReceivesPerSecond", Json.num true h.MaxReceivesPerSecond)]
  else []

/-- The field `json.Marshal` emits for the healthy-retry-policy pointer: a
nil pointer is omitted, a non-nil pointer is emitted as a (possibly empty)
object. -/
def healthyPtrFieldJson
    (o : Option snsTopicSubscriptionDeliveryPolicyHealthyRetryPolicy) :
    List (String × Json) :=
  match o with
  | some h => [("healthyRetryPolicy", Json.obj (healthyFieldsJson h))]
  | none => []

/-- See `healthyPtrFieldJson`. -/
def sicklyPtrFieldJson
    (o : Option snsTopicSubscriptionDeliveryPolicySicklyRetryPolicy) :
    List (String × Json) :=
  match o with
  | some h => [("sicklyRetryPolicy", Json.obj (sicklyFieldsJson h))]
  | none => []

/-- See `healthyPtrFieldJson`. -/
def throttlePtrFieldJson
    (o : Option snsTopicSubscriptionDeliveryPolicyThrottlePolicy) :
    List (String × Json) :=
  match o with
  | some h => [("throttlePolicy", Json.obj (throttleFieldsJson h))]
  | none => []

/-- The fields `json.Marshal` emits for the delivery policy: `false` and nil
pointers are omitted, a non-nil pointer is emitted as a (possibly empty)
object. -/
def deliveryFieldsJson (p : snsTopicSubscriptionDeliveryPolicy) :
    List (String × Json) :=
  (if p.Guaranteed then [("guaranteed", Json.bool true)] else [])
  ++ healthyPtrFieldJson p.HealthyRetryPolicy
  ++ sicklyPtrFieldJson p.SicklyRetryPolicy
  ++ throttlePtrFieldJson p.ThrottlePolicy

/-- `json.Marshal` of a delivery policy. -/
def snsDeliveryPolicyMarshal (p : snsTopicSubscriptionDeliveryPolicy) : String :=
  String.mk (serVal (Json.obj (deliveryFieldsJson p)))

/-! ### Compact, normalization and the diff-suppression function -/

/-- Character copy loop of `json.Compact`: drop whitespace outside string
literals, copy everything else verbatim.  The two flags track whether the
scanner is inside a string literal and whether the previous character opened
a backslash escape. -/
def compactChars : Bool → Bool → List Char → List Char
  | _, _, [] => []
  | false, _, c :: t =>
    if isJsonWs c then compactChars false false t
    else c :: compactChars (c == '"') false t
  | true, false, c :: t =>
    c :: (if c == '\\' then compactChars true true t
          else compactChars (c != '"') false t)
  | true, true, c :: t => c :: compactChars true false t

/-- `json.Compact`: validates the text and strips insignificant whitespace;
an invalid text is an error (`none`). -/
def jsonCompact (s : String) : Option String :=
  if (parseJson s).isSome then some (String.mk (compactChars false false s.data))
  else none

/-- Normalization of a delivery-policy JSON text, as performed on the old
value inside `suppressEquivalentSnsTopicSubscriptionDeliveryPolicy`
(lines 410–422): `json.Unmarshal` into the schema struct followed by
`json.Marshal`. -/
def snsNormalizeDeliveryPolicy (t : String) : Option String :=
  match parseJson t with
  | none => none
  | some j =>
    match snsDeliveryPolicyUnmarshal j with
    | none => none
    | some p => some (snsDeliveryPolicyMarshal p)

/-- Modelled from the spec: `jsonBytesEqual` is defined in a source file of
this repository that is not among the given sources (only its caller is);
per the specification the two compacted texts are "compared
byte-for-byte". -/
def jsonBytesEqual (a b : String) : Bool := a == b

/-- Translation of `suppressEquivalentSnsTopicSubscriptionDeliveryPolicy`
(lines 409–435): normalize the old text through the schema, compact the
result and the new text, and compare; any failure on the way yields `false`
(the diff is not suppressed) rather than an error. -/
def suppressEquivalentSnsTopicSubscriptionDeliveryPolicy (old new : String) :
    Bool :=
  match snsNormalizeDeliveryPolicy old with
  | none => false
  | some normalizedDeliveryPolicy =>
    match jsonCompact normalizedDeliveryPolicy with
    | none => false
    | some ob =>
      match jsonCompact new with
      | none => false
      | some nb => jsonBytesEqual ob nb

/-! ## Theorems -/

/-- C1: the claim states that polling is skipped exactly when (the protocol
contains "http" and endpoint auto-confirm is **enabled**) or the protocol
contains "email".  The code does the opposite for the first disjunct: it
skips when auto-confirm is **disabled** for an "http" protocol.  At the
claim's own instances: for protocol "https" with auto-confirm enabled the
claim demands that no poll be invoked, but the code polls (with the
minutes-based timeout); for "https" with auto-confirm disabled the claim
demands a poll with the minutes-based timeout, but the code skips
polling. -/
theorem C1_counterexample :
    snsCreateWaitDecision "https" true 1 = some (SnsWaitTimeout.minutes 1) ∧
    snsCreateWaitDecision "https" false 1 = none := ⟨rfl, rfl⟩

/-- C1 (amended): during create, polling is skipped exactly when (the
protocol contains "http" and endpoint auto-confirm is disabled) or the
protocol contains "email"; in particular "https" with auto-confirm disabled
and "email" skip the poll, and "https" with auto-confirm enabled polls with
the caller-supplied minutes-based timeout. -/
theorem C1_create_wait_skip_rule :
    (∀ (protocol : String) (auto : Bool) (n : Nat),
      snsCreateWaitDecision protocol auto n = none ↔
        (strContains protocol "http" = true ∧ auto = false) ∨
          strContains protocol "email" = true) ∧
    snsCreateWaitDecision "https" false 1 = none ∧
    snsCreateWaitDecision "email" true 1 = none ∧
    snsCreateWaitDecision "https" true 3 = some (SnsWaitTimeout.minutes 3) := by
  refine ⟨?_, rfl, rfl, rfl⟩
  intro p a n
  cases a <;> cases hh : strContains p "http" <;> cases he : strContains p "email" <;>
    simp [snsCreateWaitDecision, hh, he]

/-- C2: the delivery-policy equivalence check is asymmetric and byte-based.
The old text is normalized through the schema while the new text is only
whitespace-compacted, so a whitespace-only reformatting of the new text is
equivalent, an unknown field in the new text is not, and the same unknown
field on the old side *is* equivalent (it is dropped by normalization),
exhibiting the asymmetry concretely. -/
theorem C2_equivalence_asymmetry :
    suppressEquivalentSnsTopicSubscriptionDeliveryPolicy
      "\x7b\"guaranteed\":true\x7d" "\x7b \"guaranteed\": true \x7d" = true ∧
    suppressEquivalentSnsTopicSubscriptionDeliveryPolicy
      "\x7b\"guaranteed\":true\x7d"
      "\x7b\"unknownField\":\"x\",\"guaranteed\":true\x7d" = false ∧
    suppressEquivalentSnsTopicSubscriptionDeliveryPolicy
      "\x7b\"unknownField\":\"x\",\"guaranteed\":true\x7d"
      "\x7b\"guaranteed\":true\x7d" = true := ⟨rfl, rfl, rfl⟩

/-- C5: normalizing the delivery-policy text
`\x7b"guaranteed":false,"unknownField":"x"\x7d` yields `\x7b\x7d`: the
zero-valued `guaranteed` is omitted (omitempty) and the unknown field is
dropped by the schema. -/
theorem C5_normalize_field_dropping :
    snsNormalizeDeliveryPolicy "\x7b\"guaranteed\":false,\"unknownField\":\"x\"\x7d"
      = some "\x7b\x7d" := rfl

/-- C8: for every subscription identifier, setting the redrive-policy
attribute with value "" produces a request whose attribute value is nil
(absent), never an empty-string payload; for every other attribute name the
supplied value is sent unchanged, and identifier and attribute name are
passed through as given. -/
theorem C8_redrive_policy_null :
    ∀ (arn name value : String),
      (snsSubscriptionAttributeUpdate arn name value).subscriptionArn = arn ∧
      (snsSubscriptionAttributeUpdate arn name value).attributeName = name ∧
      (name = "RedrivePolicy" → value = "" →
        (snsSubscriptionAttributeUpdate arn name value).attributeValue = none) ∧
      (name ≠ "RedrivePolicy" →
        (snsSubscriptionAttributeUpdate arn name value).attributeValue = some value) := by
  intro arn name value
  refine ⟨?_, ?_, ?_, ?_⟩
  · unfold snsSubscriptionAttributeUpdate; split <;> rfl
  · unfold snsSubscriptionAttributeUpdate; split <;> rfl
  · intro h1 h2; simp [snsSubscriptionAttributeUpdate, h1, h2]
  · intro h; simp [snsSubscriptionAttributeUpdate, h]

/-- Witness for C8 at concrete inputs. -/
theorem C8_witness :
    (snsSubscriptionAttributeUpdate "arn:sub" "RedrivePolicy" "").attributeValue
        = none ∧
    (snsSubscriptionAttributeUpdate "arn:sub" "FilterPolicy" "").attributeValue
        = some "" :=
  ⟨(C8_redrive_policy_null "arn:sub" "RedrivePolicy" "").2.2.1 rfl rfl,
   (C8_redrive_policy_null "arn:sub" "FilterPolicy" "").2.2.2 (by decide)⟩

/-- C9: on update, a changed filter policy whose configured value is the
empty string is sent as the literal text `\x7b\x7d`; a non-empty filter
policy is sent unchanged, and the substitution applies only to the
filter-policy attribute (an empty changed delivery policy is sent as the
empty string). -/
theorem C9_filter_policy_empty_becomes_empty_object :
    ∀ (id protocol : String) (c : SnsSubscriptionConfig),
      (c.filter_policy = "" →
        resourceAwsSnsTopicSubscriptionUpdate id protocol
            { filter_policy := true } c
          = ([snsSubscriptionAttributeUpdate id "FilterPolicy" "\x7b\x7d"], none)) ∧
      (c.filter_policy ≠ "" →
        resourceAwsSnsTopicSubscriptionUpdate id protocol
            { filter_policy := true } c
          = ([snsSubscriptionAttributeUpdate id "FilterPolicy" c.filter_policy],
             none)) ∧
      (c.delivery_policy = "" →
        resourceAwsSnsTopicSubscriptionUpdate id protocol
            { delivery_policy := true } c
          = ([snsSubscriptionAttributeUpdate id "DeliveryPolicy" ""], none)) := by
  intro id protocol c
  refine ⟨?_, ?_, ?_⟩ <;> intro h <;>
    simp [resourceAwsSnsTopicSubscriptionUpdate, h]

/-- Witness for C9 at concrete inputs. -/
theorem C9_witness :
    resourceAwsSnsTopicSubscriptionUpdate "arn:sub" "sqs"
        { filter_policy := true } { filter_policy := "" }
      = ([snsSubscriptionAttributeUpdate "arn:sub" "FilterPolicy" "\x7b\x7d"],
         none) :=
  (C9_filter_policy_empty_becomes_empty_object "arn:sub" "sqs"
    { filter_policy := "" }).1 rfl

/-- C10: a not-found error on read clears the stored identifier and returns
success exactly when the resource is not freshly created; on a fresh
resource the same error is surfaced and the identifier is unchanged — for
both the SNS subscription read (where not-found is the AWS error code
`ResourceNotFound` or `NotFound`) and the SESV2 custom verification email
template read (where not-found is the rewrapped `NotFoundException`). -/
theorem C10_read_not_found_guard :
    (∀ (id code : String) (s : SnsSubscriptionState),
      (code = "ResourceNotFound" ∨ code = "NotFound") →
      resourceAwsSnsTopicSubscriptionRead false id (.error code) s
          = { error := none, id := "", state := s } ∧
      resourceAwsSnsTopicSubscriptionRead true id (.error code) s
          = { error := some code, id := id, state := s }) ∧
    (∀ (id : String) (s : Sesv2TemplateState),
      resourceCustomVerificationEmailTemplateRead false id .notFoundException s
          = { error := none, id := "", state := s } ∧
      resourceCustomVerificationEmailTemplateRead true id .notFoundException s
          = { error := some .notFound, id := id, state := s }) := by
  constructor
  · intro id code s h
    rcases h with h | h <;> subst h <;>
      exact ⟨rfl, rfl⟩
  · intro id s
    exact ⟨rfl, rfl⟩

/-- Witness for C10 at concrete inputs. -/
theorem C10_witness :
    resourceAwsSnsTopicSubscriptionRead false "arn:sub" (.error "NotFound") {}
        = { error := none, id := "", state := {} } ∧
    resourceAwsSnsTopicSubscriptionRead true "arn:sub" (.error "NotFound") {}
        = { error := some "NotFound", id := "arn:sub", state := {} } :=
  (C10_read_not_found_guard.1 "arn:sub" "NotFound" {} (Or.inr rfl))

/-- C3: the claim requires `decode (encode R)` to reconstruct every
non-default optional field, subscription role included.  The code encodes a
non-default subscription role, but the read function never sets
`subscription_role_arn`, so decoding the encoding from a default prior
state yields the empty role instead of the configured "role-x". -/
theorem C3_counterexample :
    expandSNSSubscriptionAttributes { subscription_role_arn := "role-x" }
      = [("SubscriptionRoleArn", "role-x")] ∧
    (snsSubscriptionAttributesDecode
        (expandSNSSubscriptionAttributes { subscription_role_arn := "role-x" })
        {}).subscription_role_arn = "" ∧
    ("role-x" : String) ≠ "" := ⟨rfl, rfl, by decide⟩

/-- C3 (amended): encoding emits no key for a default-valued field (all
defaults give the empty attribute map); decoding the encoding reconstructs
the delivery policy, filter policy, raw-message-delivery flag and redrive
policy exactly, while the subscription role is not reconstructed — the read
function leaves the prior state's value in place; and decoding an empty
attribute map yields the default value for every field the read function
sets. -/
theorem C3_codec_round_trip :
    (∀ c : SnsSubscriptionConfig,
      c.delivery_policy = "" → c.filter_policy = "" →
      c.raw_message_delivery = false → c.redrive_policy = "" →
      c.subscription_role_arn = "" →
      expandSNSSubscriptionAttributes c = []) ∧
    (∀ c : SnsSubscriptionConfig,
      (c.delivery_policy = "" →
        attrLookup (expandSNSSubscriptionAttributes c) "DeliveryPolicy" = none) ∧
      (c.filter_policy = "" →
        attrLookup (expandSNSSubscriptionAttributes c) "FilterPolicy" = none) ∧
      (c.raw_message_delivery = false →
        attrLookup (expandSNSSubscriptionAttributes c) "RawMessageDelivery" = none) ∧
      (c.redrive_policy = "" →
        attrLookup (expandSNSSubscriptionAttributes c) "RedrivePolicy" = none) ∧
      (c.subscription_role_arn = "" →
        attrLookup (expandSNSSubscriptionAttributes c) "SubscriptionRoleArn" = none)) ∧
    (∀ (c : SnsSubscriptionConfig) (s : SnsSubscriptionState),
      (snsSubscriptionAttributesDecode (expandSNSSubscriptionAttributes c)
          s).delivery_policy = c.delivery_policy ∧
      (snsSubscriptionAttributesDecode (expandSNSSubscriptionAttributes c)
          s).filter_policy = c.filter_policy ∧
      (snsSubscriptionAttributesDecode (expandSNSSubscriptionAttributes c)
          s).raw_message_delivery = c.raw_message_delivery ∧
      (snsSubscriptionAttributesDecode (expandSNSSubscriptionAttributes c)
          s).redrive_policy = c.redrive_policy ∧
      (snsSubscriptionAttributesDecode (expandSNSSubscriptionAttributes c)
          s).subscription_role_arn = s.subscription_role_arn) ∧
    (∀ s : SnsSubscriptionState,
      snsSubscriptionAttributesDecode [] s
        = { s with
            arn := "", delivery_policy := "", endpoint := "",
            filter_policy := "", owner_id := "", protocol := "",
            redrive_policy := "", topic_arn := "",
            confirmation_was_authenticated := false,
            pending_confirmation := false,
            raw_message_delivery := false }) := by
  refine ⟨?_, ?_, ?_, ?_⟩
  · intro c h1 h2 h3 h4 h5
    simp [expandSNSSubscriptionAttributes, h1, h2, h3, h4, h5]
  · intro c
    rcases c with ⟨dp, fp, rmd, rp, sra⟩
    refine ⟨?_, ?_, ?_, ?_, ?_⟩ <;> intro h <;> subst h <;>
      simp [expandSNSSubscriptionAttributes, attrLookup] <;>
      split_ifs <;> simp [attrLookup]
  · intro c s
    rcases c with ⟨dp, fp, rmd, rp, sra⟩
    by_cases h1 : dp = "" <;> by_cases h2 : fp = "" <;> cases rmd <;>
      by_cases h4 : rp = "" <;> by_cases h5 : sra = "" <;>
      simp [expandSNSSubscriptionAttributes, snsSubscriptionAttributesDecode,
        attrLookup, h1, h2, h4, h5]
  · intro s
    rfl

/-- Witness for C3's amended theorem at concrete inputs. -/
theorem C3_witness :
    expandSNSSubscriptionAttributes {} = ([] : List (String × String)) ∧
    (snsSubscriptionAttributesDecode
        (expandSNSSubscriptionAttributes { filter_policy := "\x7b\x7d" })
        {}).filter_policy = "\x7b\x7d" :=
  ⟨C3_codec_round_trip.1 {} rfl rfl rfl rfl rfl,
   (C3_codec_round_trip.2.2.1 { filter_policy := "\x7b\x7d" } {}).2.1⟩

/-! ### Substring lemmas for the role/protocol validation -/

theorem listStartsWith_length {l n : List Char} (h : listStartsWith l n = true) :
    n.length ≤ l.length := by
  induction n generalizing l with
  | nil => simp
  | cons b bs ih =>
    cases l with
    | nil => simp [listStartsWith] at h
    | cons a as =>
      simp only [listStartsWith, Bool.and_eq_true, beq_iff_eq] at h
      have := ih h.2
      simp only [List.length_cons]
      omega

theorem listStartsWith_eq {l n : List Char} (h : listStartsWith l n = true)
    (hlen : l.length = n.length) : l = n := by
  induction n generalizing l with
  | nil => cases l <;> simp_all
  | cons b bs ih =>
    cases l with
    | nil => simp at hlen
    | cons a as =>
      simp only [listStartsWith, Bool.and_eq_true, beq_iff_eq] at h
      simp only [List.length_cons, Nat.add_right_cancel_iff] at hlen
      rw [h.1, ih h.2 hlen]

theorem listContainsSub_length {hay needle : List Char}
    (h : listContainsSub hay needle = true) : needle.length ≤ hay.length := by
  induction hay with
  | nil =>
    rw [listContainsSub] at h
    exact listStartsWith_length h
  | cons a t ih =>
    rw [listContainsSub, Bool.or_eq_true] at h
    rcases h with h | h
    · exact listStartsWith_length h
    · have := ih h
      simp only [List.length_cons]
      omega

theorem listContainsSub_eq {hay needle : List Char}
    (h : listContainsSub hay needle = true) (hlen : hay.length = needle.length) :
    hay = needle := by
  cases hay with
  | nil =>
    rw [listContainsSub] at h
    exact listStartsWith_eq h hlen
  | cons a t =>
    rw [listContainsSub, Bool.or_eq_true] at h
    rcases h with h | h
    · exact listStartsWith_eq h hlen
    · have := listContainsSub_length h
      simp only [List.length_cons] at hlen
      omega

theorem listStartsWith_map (f : Char → Char) {l n : List Char}
    (h : listStartsWith l n = true) :
    listStartsWith (l.map f) (n.map f) = true := by
  induction n generalizing l with
  | nil => cases l <;> simp [listStartsWith]
  | cons b bs ih =>
    cases l with
    | nil => simp [listStartsWith] at h
    | cons a as =>
      simp only [listStartsWith, Bool.and_eq_true, beq_iff_eq] at h
      simp only [List.map_cons, listStartsWith, Bool.and_eq_true, beq_iff_eq]
      exact ⟨by rw [h.1], ih h.2⟩

theorem listContainsSub_map (f : Char → Char) {hay needle : List Char}
    (h : listContainsSub hay needle = true) :
    listContainsSub (hay.map f) (needle.map f) = true := by
  induction hay with
  | nil =>
    rw [listContainsSub] at h
    rw [List.map_nil, listContainsSub]
    exact listStartsWith_map f h
  | cons a t ih =>
    rw [listContainsSub, Bool.or_eq_true] at h
    rw [List.map_cons, listContainsSub, Bool.or_eq_true]
    rcases h with h | h
    · exact Or.inl (by simpa using listStartsWith_map f h)
    · exact Or.inr (ih h)

/-- For a protocol accepted by the schema's case-insensitive validation,
`strings.Contains protocol "firehose"` holds exactly for the literal
`"firehose"`. -/
theorem strContains_firehose_of_valid {p : String}
    (hv : snsProtocolIsValid p = true) :
    (strContains p "firehose" = true ↔ p = "firehose") := by
  constructor
  · intro hc
    rw [strContains] at hc
    have hmap := listContainsSub_map Char.toLower hc
    simp only [snsProtocolIsValid, snsProtocolValues, List.any_cons,
      List.any_nil, Bool.or_eq_true, Bool.or_false, strEqualFold,
      beq_iff_eq] at hv
    rcases hv with h | h | h | h | h | h | h | h | h
    all_goals rw [h] at hmap
    case _ => exact absurd hmap (by decide)
    case _ => exact absurd hmap (by decide)
    case _ => exact absurd hmap (by decide)
    case _ =>
      -- the "firehose" case: equal lengths force equality
      have hlen : p.data.length = ("firehose".data : List Char).length := by
        have := congrArg List.length h
        simpa using this
      have := listContainsSub_eq hc hlen
      have hp : String.mk p.data = String.mk ("firehose".data) := by rw [this]
      exact hp
    case _ => exact absurd hmap (by decide)
    case _ => exact absurd hmap (by decide)
    case _ => exact absurd hmap (by decide)
    case _ => exact absurd hmap (by decide)
    case _ => exact absurd hmap (by decide)
  · intro h
    rw [h]
    decide

/-- The attribute name of the assembled request is the supplied name. -/
theorem snsSubscriptionAttributeUpdate_attributeName (a n v : String) :
    (snsSubscriptionAttributeUpdate a n v).attributeName = n := by
  unfold snsSubscriptionAttributeUpdate
  split <;> rfl

/-- C7: on the subscription-role update path, validation precedes the
subscription-role remote call.  With only the role changed, (role "x",
protocol "sqs") and (role "", protocol "firehose") are rejected with a user
configuration error and no remote call is issued, while (role "x",
protocol "firehose") and (role "", protocol "sqs") are accepted; whenever
the update returns a validation error, no `SubscriptionRoleArn` call is
among the issued requests; and for any schema-valid protocol, a non-empty
role passes validation exactly when the protocol is exactly "firehose". -/
theorem C7_subscription_role_validation :
    (resourceAwsSnsTopicSubscriptionUpdate "arn1" "sqs"
        { subscription_role_arn := true } { subscription_role_arn := "x" }
      = ([], some "Only protocol firehose supports subscription_role_arn!")) ∧
    (resourceAwsSnsTopicSubscriptionUpdate "arn1" "firehose"
        { subscription_role_arn := true } { subscription_role_arn := "" }
      = ([], some "Protocol firehose must contain subscription_role_arn!")) ∧
    (resourceAwsSnsTopicSubscriptionUpdate "arn1" "firehose"
        { subscription_role_arn := true } { subscription_role_arn := "x" }
      = ([snsSubscriptionAttributeUpdate "arn1" "SubscriptionRoleArn" "x"],
         none)) ∧
    (resourceAwsSnsTopicSubscriptionUpdate "arn1" "sqs"
        { subscription_role_arn := true } { subscription_role_arn := "" }
      = ([snsSubscriptionAttributeUpdate "arn1" "SubscriptionRoleArn" ""],
         none)) ∧
    (∀ (id protocol : String) (ch : SnsUpdateChanges) (c : SnsSubscriptionConfig),
      (resourceAwsSnsTopicSubscriptionUpdate id protocol ch c).2 ≠ none →
      ∀ r ∈ (resourceAwsSnsTopicSubscriptionUpdate id protocol ch c).1,
        r.attributeName ≠ "SubscriptionRoleArn") ∧
    (∀ (id protocol : String) (ch : SnsUpdateChanges) (c : SnsSubscriptionConfig),
      ch.subscription_role_arn = true →
      snsProtocolIsValid protocol = true →
      c.subscription_role_arn ≠ "" →
      ((resourceAwsSnsTopicSubscriptionUpdate id protocol ch c).2 = none ↔
        protocol = "firehose")) := by
  refine ⟨rfl, rfl, rfl, rfl, ?_, ?_⟩
  · intro id protocol ch c h2 r hr
    rcases ch with ⟨b1, b2, b3, b4, b5⟩
    cases b4 with
    | false => simp [resourceAwsSnsTopicSubscriptionUpdate] at h2
    | true =>
      by_cases hc1 : strContains protocol "firehose" = true ∧
          c.subscription_role_arn = ""
      · cases b1 <;> cases b2 <;> cases b3 <;>
          simp [resourceAwsSnsTopicSubscriptionUpdate, hc1] at hr <;>
          (try casesm* _ ∨ _) <;>
          simp_all [snsSubscriptionAttributeUpdate_attributeName]
      · by_cases hc2 : strContains protocol "firehose" = false ∧
            c.subscription_role_arn ≠ ""
        · cases b1 <;> cases b2 <;> cases b3 <;>
            simp [resourceAwsSnsTopicSubscriptionUpdate, hc1, hc2] at hr <;>
            (try casesm* _ ∨ _) <;>
            simp_all [snsSubscriptionAttributeUpdate_attributeName]
        · simp [resourceAwsSnsTopicSubscriptionUpdate, hc1, hc2] at h2
  · intro id protocol ch c hch hv hrole
    have hiff := strContains_firehose_of_valid hv
    cases hcont : strContains protocol "firehose" with
    | true =>
      simp [resourceAwsSnsTopicSubscriptionUpdate, hch, hcont, hrole]
      exact hiff.1 hcont
    | false =>
      simp [resourceAwsSnsTopicSubscriptionUpdate, hch, hcont, hrole]
      intro h
      rw [h] at hcont
      exact absurd hcont (by decide)

/-- Witness for C7's hypotheses at concrete inputs. -/
theorem C7_witness :
    snsProtocolIsValid "sqs" = true ∧
    ((resourceAwsSnsTopicSubscriptionUpdate "arn1" "sqs"
        { subscription_role_arn := true } { subscription_role_arn := "x" }).2
          = none ↔ ("sqs" : String) = "firehose") :=
  ⟨by decide,
   C7_subscription_role_validation.2.2.2.2.2 "arn1" "sqs"
     { subscription_role_arn := true } { subscription_role_arn := "x" }
     rfl (by decide) (by decide)⟩

/-- C6: the equivalence check fails open.  If the old text fails to parse
under the delivery-policy schema (`Unmarshal` error), or the normalized old
text fails `json.Compact`, or the new text fails `json.Compact`, the
function returns `false` (not equivalent); it is a total boolean function,
so no error is raised or propagated on any input. -/
theorem C6_fails_open :
    ∀ old new : String,
      (snsNormalizeDeliveryPolicy old = none ∨
       (∃ u, snsNormalizeDeliveryPolicy old = some u ∧ jsonCompact u = none) ∨
       jsonCompact new = none) →
      suppressEquivalentSnsTopicSubscriptionDeliveryPolicy old new = false := by
  intro old new h
  unfold suppressEquivalentSnsTopicSubscriptionDeliveryPolicy
  rcases h with h | ⟨u, h1, h2⟩ | h
  · simp [h]
  · simp [h1, h2]
  · cases hn : snsNormalizeDeliveryPolicy old with
    | none => simp
    | some u =>
      cases hc : jsonCompact u with
      | none => simp [hc]
      | some ob => simp [hc, h]

/-- Witness for C6 at concrete inputs: a non-JSON old text. -/
theorem C6_witness :
    snsNormalizeDeliveryPolicy "not json" = none ∧
    suppressEquivalentSnsTopicSubscriptionDeliveryPolicy "not json" "\x7b\x7d"
      = false :=
  ⟨rfl, C6_fails_open "not json" "\x7b\x7d" (Or.inl rfl)⟩

/-! ### Parse/serialize roundtrip: digits and numbers -/

theorem skipWs_cons_not_ws (c : Char) {t : List Char} (h : isJsonWs c = false) :
    skipWs (c :: t) = c :: t := by
  simp [skipWs, h]

theorem digitChar_toNat {d : Nat} (h : d < 10) : (digitChar d).toNat = 48 + d := by
  interval_cases d <;> decide

theorem digitChar_isDigit {d : Nat} (h : d < 10) : (digitChar d).isDigit = true := by
  interval_cases d <;> decide

theorem digitChar_ne_zero {d : Nat} (h : d < 10) (h0 : d ≠ 0) :
    digitChar d ≠ '0' := by
  interval_cases d <;> revert h0 <;> decide

theorem digitVal_digitChar {d : Nat} (h : d < 10) : digitVal (digitChar d) = d := by
  rw [digitVal, digitChar_toNat h]
  omega

theorem digitsToNat_rev_digits (l : List Nat) (hl : ∀ d ∈ l, d < 10) (a : Nat) :
    ((l.reverse.map digitChar).foldl (fun acc c => 10 * acc + digitVal c) a)
      = a * 10 ^ l.length + Nat.ofDigits 10 l := by
  induction l generalizing a with
  | nil => simp
  | cons d t ih =>
    have hd : d < 10 := hl d (by simp)
    have ht : ∀ x ∈ t, x < 10 := fun x hx => hl x (by simp [hx])
    simp only [List.reverse_cons, List.map_append, List.foldl_append,
      List.map_cons, List.foldl_cons, List.map_nil, List.foldl_nil]
    rw [ih ht, digitVal_digitChar hd, Nat.ofDigits_cons, List.length_cons,
      pow_succ]
    ring

theorem digitsToNat_natDigitChars (n : Nat) :
    digitsToNat (natDigitChars n) = n := by
  by_cases h : n = 0
  · subst h; decide
  · rw [natDigitChars, if_neg h, digitsToNat]
    rw [digitsToNat_rev_digits (Nat.digits 10 n)
      (fun d hd => Nat.digits_lt_base (by norm_num) hd) 0]
    simp [Nat.ofDigits_digits]

theorem natDigitChars_all_digits (n : Nat) :
    ∀ c ∈ natDigitChars n, c.isDigit = true := by
  intro c hc
  by_cases h : n = 0
  · subst h; simp [natDigitChars] at hc; subst hc; decide
  · rw [natDigitChars, if_neg h] at hc
    simp only [List.mem_map, List.mem_reverse] at hc
    obtain ⟨d, hd, rfl⟩ := hc
    exact digitChar_isDigit (Nat.digits_lt_base (by norm_num) hd)

theorem natDigitChars_ne_nil (n : Nat) : natDigitChars n ≠ [] := by
  by_cases h : n = 0
  · subst h; decide
  · rw [natDigitChars, if_neg h]
    simp [Nat.digits_ne_nil_iff_ne_zero.mpr h]

theorem natDigitChars_head_ne_zero {n : Nat} (h : n ≠ 0) {c : Char}
    {cs : List Char} (he : natDigitChars n = c :: cs) : c ≠ '0' := by
  rw [natDigitChars, if_neg h] at he
  have hne : Nat.digits 10 n ≠ [] := Nat.digits_ne_nil_iff_ne_zero.mpr h
  rcases List.eq_nil_or_concat (Nat.digits 10 n) with hnil | ⟨l', d, hl⟩
  · exact absurd hnil hne
  · rw [hl] at he
    simp only [List.concat_eq_append, List.reverse_append, List.reverse_cons,
      List.reverse_nil, List.nil_append, List.singleton_append,
      List.map_cons] at he
    have hd10 : d < 10 :=
      Nat.digits_lt_base (by norm_num) (by rw [hl]; simp)
    have hd0 : d ≠ 0 := by
      have hlast := Nat.getLast_digit_ne_zero 10 h
      have h5 : (Nat.digits 10 n).getLast? = some d := by
        rw [hl]; simp [List.getLast?_concat]
      have h6 : (Nat.digits 10 n).getLast? =
          some ((Nat.digits 10 n).getLast hne) :=
        List.getLast?_eq_getLast _ hne
      rw [h5, Option.some_inj] at h6
      rw [h6]
      exact hlast
    injection he with hh _
    rw [← hh]
    exact digitChar_ne_zero hd10 hd0

theorem takeWhile_append_all {p : Char → Bool} {l r : List Char}
    (h : ∀ c ∈ l, p c = true) :
    (l ++ r).takeWhile p = l ++ r.takeWhile p := by
  induction l with
  | nil => simp
  | cons a t ih =>
    simp [List.takeWhile_cons, h a (by simp),
      ih (fun c hc => h c (by simp [hc]))]

theorem dropWhile_append_all {p : Char → Bool} {l r : List Char}
    (h : ∀ c ∈ l, p c = true) :
    (l ++ r).dropWhile p = r.dropWhile p := by
  induction l with
  | nil => simp
  | cons a t ih =>
    simp only [List.cons_append, List.dropWhile_cons, h a (by simp)]
    exact ih (fun c hc => h c (by simp [hc]))

/-- The rest of the input after a serialized number must not continue the
literal: no digit, decimal point or exponent marker at its head. -/
def numStop (cs : List Char) : Prop :=
  ∀ c, cs.head? = some c → c.isDigit = false ∧ c ≠ '.' ∧ c ≠ 'e' ∧ c ≠ 'E'

theorem takeWhile_numStop {r : List Char} (h : numStop r) :
    r.takeWhile Char.isDigit = [] := by
  cases r with
  | nil => rfl
  | cons c t => simp [List.takeWhile_cons, (h c rfl).1]

theorem dropWhile_numStop {r : List Char} (h : numStop r) :
    r.dropWhile Char.isDigit = r := by
  cases r with
  | nil => rfl
  | cons c t => simp [List.dropWhile_cons, (h c rfl).1]

theorem pExpPart_numStop {r : List Char} (h : numStop r) : pExpPart r = none := by
  cases r with
  | nil => rfl
  | cons c t =>
    obtain ⟨_, _, h3, h4⟩ := h c rfl
    rw [pExpPart, if_neg (by simp [h3, h4])]

theorem pNumInt_numStop (neg : Bool) (d : List Char) {rest : List Char}
    (h : numStop rest) :
    pNumInt neg d rest
      = some (Json.num true (if neg then -(digitsToNat d : Int)
                             else (digitsToNat d : Int)), rest) := by
  unfold pNumInt
  rw [pExpPart_numStop h]

theorem pNumTail_numStop (neg : Bool) (d : List Char) {rest : List Char}
    (h : numStop rest) :
    pNumTail neg d rest
      = some (Json.num true (if neg then -(digitsToNat d : Int)
                             else (digitsToNat d : Int)), rest) := by
  cases rest with
  | nil => rw [pNumTail, pNumInt_numStop neg d h]
  | cons c0 t0 =>
    obtain ⟨_, h2, _, _⟩ := h c0 rfl
    rw [pNumTail, if_neg h2, pNumInt_numStop neg d h]

theorem pNumBody_natDigitChars (neg : Bool) (m : Nat) (rest : List Char)
    (h : numStop rest) :
    pNumBody neg (natDigitChars m ++ rest)
      = some (Json.num true (if neg then -(m : Int) else (m : Int)), rest) := by
  by_cases hm : m = 0
  · subst hm
    show pNumBody neg ('0' :: rest) = _
    rw [pNumBody]
    rw [if_neg (by decide : ¬¬('0' : Char).isDigit = true),
      if_pos (rfl : ('0' : Char) = '0')]
    rw [pNumTail_numStop neg ['0'] h]
    have hz : digitsToNat ['0'] = 0 := by decide
    rw [hz]
  · rcases he : natDigitChars m with _ | ⟨c, cs⟩
    · exact absurd he (natDigitChars_ne_nil m)
    · have hcd : c.isDigit = true :=
        natDigitChars_all_digits m c (by rw [he]; simp)
      have hcs : ∀ x ∈ cs, x.isDigit = true := fun x hx =>
        natDigitChars_all_digits m x (by rw [he]; simp [hx])
      have hc0 : c ≠ '0' := natDigitChars_head_ne_zero hm he
      rw [List.cons_append, pNumBody]
      rw [if_neg (by simp [hcd]), if_neg hc0]
      rw [takeWhile_append_all hcs, takeWhile_numStop h, List.append_nil,
        dropWhile_append_all hcs, dropWhile_numStop h]
      rw [pNumTail_numStop neg (c :: cs) h]
      have hval : digitsToNat (c :: cs) = m := by
        rw [← he, digitsToNat_natDigitChars]
      rw [hval]

theorem pNum_serIntChars (i : Int) (rest : List Char) (h : numStop rest) :
    pNum (serIntChars i ++ rest) = some (Json.num true i, rest) := by
  by_cases hi : i < 0
  · rw [serIntChars, if_pos hi, List.cons_append]
    have hstep : pNum ('-' :: (natDigitChars i.natAbs ++ rest))
        = pNumBody true (natDigitChars i.natAbs ++ rest) := rfl
    rw [hstep, pNumBody_natDigitChars true i.natAbs rest h]
    have hv : -((i.natAbs : Nat) : Int) = i := by omega
    rw [if_pos rfl, hv]
  · rw [serIntChars, if_neg hi]
    rcases he : natDigitChars i.toNat with _ | ⟨c, cs⟩
    · exact absurd he (natDigitChars_ne_nil _)
    · have hcd : c.isDigit = true :=
        natDigitChars_all_digits _ c (by rw [he]; simp)
      have hcne : c ≠ '-' := by
        intro hc; rw [hc] at hcd; exact absurd hcd (by decide)
      rw [List.cons_append, pNum.eq_def]
      split
      · next heq =>
        injection heq with hh _
        exact absurd hh hcne
      · rw [← List.cons_append, ← he,
          pNumBody_natDigitChars false i.toNat rest h]
        have hv : ((i.toNat : Nat) : Int) = i := by omega
        rw [if_neg (by simp), hv]

/-! ### Parse/serialize roundtrip: strings -/

theorem hexDigitVal_hexDigitChar {n : Nat} (h : n < 16) :
    hexDigitVal (hexDigitChar n) = some n := by
  interval_cases n <;> decide

theorem hexQuad_00 {v : Nat} (hv : v < 0x100) :
    hexQuad '0' '0' (hexDigitChar (v / 16)) (hexDigitChar (v % 16)) = some v := by
  rw [hexQuad, (by decide : hexDigitVal '0' = some 0),
    hexDigitVal_hexDigitChar (by omega : v / 16 < 16),
    hexDigitVal_hexDigitChar (by omega : v % 16 < 16)]
  show some (((0 * 16 + 0) * 16 + v / 16) * 16 + v % 16) = some v
  congr 1
  omega

set_option maxHeartbeats 1000000 in
theorem escChar_length_pos (c : Char) : 1 ≤ (escChar c).length := by
  unfold escChar
  repeat' split
  all_goals simp

/-- One parser step across a non-surrogate `\uXXXX` escape. -/
theorem pStrChars_u (f : Nat) (tail : List Char) (h1 h2 h3 h4 : Char) (v : Nat)
    (hq : hexQuad h1 h2 h3 h4 = some v) (hlow : v < 0xD800) :
    pStrChars (f + 1) ('\\' :: 'u' :: h1 :: h2 :: h3 :: h4 :: tail)
      = (pStrChars f tail).map (fun r => (Char.ofNat v :: r.1, r.2)) := by
  simp only [pStrChars, hq]
  simp
  rw [if_neg (by omega), if_neg (by omega)]

/-- The parser inverts the encoder's string escaping. -/
theorem pStrChars_escChars (l : List Char) :
    ∀ (f : Nat) (rest : List Char), (escChars l).length + 1 ≤ f →
      pStrChars f (escChars l ++ '"' :: rest) = some (l, rest) := by
  induction l with
  | nil =>
    intro f rest hf
    obtain ⟨f', rfl⟩ : ∃ f', f = f' + 1 := ⟨f - 1, by omega⟩
    simp [escChars, pStrChars]
  | cons c t ih =>
    intro f rest hf
    rw [escChars] at hf ⊢
    rw [List.length_append] at hf
    obtain ⟨f', rfl⟩ : ∃ f', f = f' + 1 := ⟨f - 1, by omega⟩
    have hf' : (escChars t).length + 1 ≤ f' := by
      have := escChar_length_pos c; omega
    rw [List.append_assoc, escChar]
    by_cases h1 : c = '"'
    · subst h1; rw [if_pos rfl]
      simp [pStrChars, ih f' rest hf']
    · rw [if_neg h1]
      by_cases h2 : c = '\\'
      · subst h2; rw [if_pos rfl]
        simp [pStrChars, ih f' rest hf']
      · rw [if_neg h2]
        by_cases h3 : c = '\n'
        · subst h3; rw [if_pos rfl]
          simp [pStrChars, ih f' rest hf']
        · rw [if_neg h3]
          by_cases h4 : c = '\r'
          · subst h4; rw [if_pos rfl]
            simp [pStrChars, ih f' rest hf']
          · rw [if_neg h4]
            by_cases h5 : c = '\t'
            · subst h5; rw [if_pos rfl]
              simp [pStrChars, ih f' rest hf']
            · rw [if_neg h5]
              by_cases h6 : c.toNat < 0x20
              · rw [if_pos h6]
                rw [show ('\\' :: 'u' :: '0' :: '0' ::
                    hexDigitChar (c.toNat / 16) :: hexDigitChar (c.toNat % 16)
                    :: []) ++ (escChars t ++ '"' :: rest)
                  = '\\' :: 'u' :: '0' :: '0' ::
                    hexDigitChar (c.toNat / 16) :: hexDigitChar (c.toNat % 16)
                    :: (escChars t ++ '"' :: rest) from rfl]
                rw [pStrChars_u f' _ _ _ _ _ c.toNat
                  (hexQuad_00 (by omega)) (by omega)]
                rw [ih f' rest hf']
                simp [Char.ofNat_toNat]
              · rw [if_neg h6]
                by_cases h7 : c = '<'
                · subst h7; rw [if_pos rfl]
                  rw [show (['\\', 'u', '0', '0', '3', 'c'] : List Char)
                      ++ (escChars t ++ '"' :: rest)
                    = '\\' :: 'u' :: '0' :: '0' :: '3' :: 'c'
                      :: (escChars t ++ '"' :: rest) from rfl]
                  rw [pStrChars_u f' _ _ _ _ _ 0x3c (by decide) (by omega)]
                  rw [ih f' rest hf']
                  simp [show Char.ofNat 0x3c = '<' from by decide]
                · rw [if_neg h7]
                  by_cases h8 : c = '>'
                  · subst h8; rw [if_pos rfl]
                    rw [show (['\\', 'u', '0', '0', '3', 'e'] : List Char)
                        ++ (escChars t ++ '"' :: rest)
                      = '\\' :: 'u' :: '0' :: '0' :: '3' :: 'e'
                        :: (escChars t ++ '"' :: rest) from rfl]
                    rw [pStrChars_u f' _ _ _ _ _ 0x3e (by decide) (by omega)]
                    rw [ih f' rest hf']
                    simp [show Char.ofNat 0x3e = '>' from by decide]
                  · rw [if_neg h8]
                    by_cases h9 : c = '&'
                    · subst h9; rw [if_pos rfl]
                      rw [show (['\\', 'u', '0', '0', '2', '6'] : List Char)
                          ++ (escChars t ++ '"' :: rest)
                        = '\\' :: 'u' :: '0' :: '0' :: '2' :: '6'
                          :: (escChars t ++ '"' :: rest) from rfl]
                      rw [pStrChars_u f' _ _ _ _ _ 0x26 (by decide) (by omega)]
                      rw [ih f' rest hf']
                      simp [show Char.ofNat 0x26 = '&' from by decide]
                    · rw [if_neg h9]
                      by_cases h10 : c.toNat = 0x2028
                      · rw [if_pos h10]
                        rw [show (['\\', 'u', '2', '0', '2', '8'] : List Char)
                            ++ (escChars t ++ '"' :: rest)
                          = '\\' :: 'u' :: '2' :: '0' :: '2' :: '8'
                            :: (escChars t ++ '"' :: rest) from rfl]
                        rw [pStrChars_u f' _ _ _ _ _ 0x2028 (by decide)
                          (by omega)]
                        rw [ih f' rest hf']
                        have hc : Char.ofNat 0x2028 = c := by
                          rw [← h10, Char.ofNat_toNat]
                        rw [hc]
                        rfl
                      · rw [if_neg h10]
                        by_cases h11 : c.toNat = 0x2029
                        · rw [if_pos h11]
                          rw [show (['\\', 'u', '2', '0', '2', '9'] : List Char)
                              ++ (escChars t ++ '"' :: rest)
                            = '\\' :: 'u' :: '2' :: '0' :: '2' :: '9'
                              :: (escChars t ++ '"' :: rest) from rfl]
                          rw [pStrChars_u f' _ _ _ _ _ 0x2029 (by decide)
                            (by omega)]
                          rw [ih f' rest hf']
                          have hc : Char.ofNat 0x2029 = c := by
                            rw [← h11, Char.ofNat_toNat]
                          rw [hc]
                          rfl
                        · rw [if_neg h11]
                          rw [List.singleton_append]
                          simp [pStrChars, h1, h2, h6, ih f' rest hf']

/-! ### Parse/serialize roundtrip: values, fields and objects -/

/-- A serialized value parses back to itself before any stopped rest. -/
def SerParses (v : Json) : Prop :=
  ∀ (f : Nat) (rest : List Char), numStop rest →
    (serVal v).length + 1 ≤ f →
    pVal f (serVal v ++ rest) = some (v, rest)

theorem numStop_brace (r : List Char) : numStop ('}' :: r) := by
  intro c hc
  simp only [List.head?_cons, Option.some_inj] at hc
  subst hc
  refine ⟨by decide, by decide, by decide, by decide⟩

theorem numStop_comma (r : List Char) : numStop (',' :: r) := by
  intro c hc
  simp only [List.head?_cons, Option.some_inj] at hc
  subst hc
  refine ⟨by decide, by decide, by decide, by decide⟩

theorem serParses_bool (b : Bool) : SerParses (.bool b) := by
  intro f rest hstop hf
  obtain ⟨f', rfl⟩ : ∃ f', f = f' + 1 := ⟨f - 1, by omega⟩
  cases b
  · show pVal (f' + 1) ('f' :: 'a' :: 'l' :: 's' :: 'e' :: rest)
      = some (.bool false, rest)
    have hws : isJsonWs 'f' = false := by decide
    simp only [pVal, skipWs_cons_not_ws 'f' hws]
    simp
  · show pVal (f' + 1) ('t' :: 'r' :: 'u' :: 'e' :: rest)
      = some (.bool true, rest)
    have hws : isJsonWs 't' = false := by decide
    simp only [pVal, skipWs_cons_not_ws 't' hws]
    simp

theorem isJsonWs_false_of_isDigit {c : Char} (h : c.isDigit = true) :
    isJsonWs c = false := by
  rw [isJsonWs]
  have h1 : c ≠ ' ' := by intro hc; rw [hc] at h; exact absurd h (by decide)
  have h2 : c ≠ '\t' := by intro hc; rw [hc] at h; exact absurd h (by decide)
  have h3 : c ≠ '\n' := by intro hc; rw [hc] at h; exact absurd h (by decide)
  have h4 : c ≠ '\r' := by intro hc; rw [hc] at h; exact absurd h (by decide)
  simp [h1, h2, h3, h4]

theorem ne_of_isDigit {c d : Char} (h : c.isDigit = true)
    (hd : d.isDigit = false) : c ≠ d := by
  intro hc; rw [hc] at h; rw [h] at hd; cases hd

/-- The head of a serialized integer: the minus sign or a digit. -/
theorem serIntChars_head (i : Int) :
    ∃ c cs, serIntChars i = c :: cs ∧ (c = '-' ∨ c.isDigit = true) := by
  by_cases hi : i < 0
  · exact ⟨'-', natDigitChars i.natAbs, by rw [serIntChars, if_pos hi],
      Or.inl rfl⟩
  · rcases he : natDigitChars i.toNat with _ | ⟨c, cs⟩
    · exact absurd he (natDigitChars_ne_nil _)
    · refine ⟨c, cs, by rw [serIntChars, if_neg hi, he], Or.inr ?_⟩
      exact natDigitChars_all_digits _ c (by rw [he]; simp)

theorem serParses_num_int (i : Int) : SerParses (.num true i) := by
  intro f rest hstop hf
  obtain ⟨f', rfl⟩ : ∃ f', f = f' + 1 := ⟨f - 1, by omega⟩
  obtain ⟨c, cs, hdec, hcp⟩ := serIntChars_head i
  show pVal (f' + 1) (serIntChars i ++ rest) = _
  rw [hdec, List.cons_append]
  have hws : isJsonWs c = false := by
    rcases hcp with rfl | hcd
    · decide
    · exact isJsonWs_false_of_isDigit hcd
  have hne : c ≠ '{' ∧ c ≠ '[' ∧ c ≠ '"' ∧ c ≠ 't' ∧ c ≠ 'f' ∧ c ≠ 'n' := by
    rcases hcp with rfl | hcd
    · refine ⟨by decide, by decide, by decide, by decide, by decide, by decide⟩
    · exact ⟨ne_of_isDigit hcd (by decide), ne_of_isDigit hcd (by decide),
        ne_of_isDigit hcd (by decide), ne_of_isDigit hcd (by decide),
        ne_of_isDigit hcd (by decide), ne_of_isDigit hcd (by decide)⟩
  simp only [pVal, skipWs_cons_not_ws c hws]
  simp only [hne.1, hne.2.1, hne.2.2.1, hne.2.2.2.1, hne.2.2.2.2.1,
    hne.2.2.2.2.2, if_false, ite_false, if_neg]
  rw [← List.cons_append, ← hdec]
  exact pNum_serIntChars i rest hstop

theorem serParses_str (s : String) : SerParses (.str s) := by
  intro f rest hstop hf
  obtain ⟨f', rfl⟩ : ∃ f', f = f' + 1 := ⟨f - 1, by omega⟩
  have hlen : (serVal (Json.str s)).length = (escChars s.data).length + 2 := by
    simp [serVal, serStrChars]
  show pVal (f' + 1) ((('"' :: (escChars s.data ++ ['"'])) : List Char) ++ rest)
    = some (.str s, rest)
  rw [List.cons_append, List.append_assoc, List.singleton_append]
  have hws : isJsonWs '"' = false := by decide
  simp only [pVal, skipWs_cons_not_ws '"' hws]
  rw [pStrChars_escChars s.data f' rest (by omega)]
  simp

theorem length_serStrChars (k : String) :
    (serStrChars k).length = (escChars k.data).length + 2 := by
  simp [serStrChars]

/-- The parser inverts the encoder on a nonempty object-field list followed
by the closing brace. -/
theorem pFieldsNext_serFields :
    ∀ (kvs : List (String × Json)), kvs ≠ [] →
      (∀ kv ∈ kvs, SerParses kv.2) →
      ∀ (f : Nat) (rest : List Char),
        (serFields kvs).length + 2 ≤ f →
        pFieldsNext f (serFields kvs ++ '}' :: rest) = some (kvs, rest) := by
  intro kvs
  induction kvs with
  | nil => intro h; exact absurd rfl h
  | cons kv t ih =>
    intro _ hvals f rest hf
    obtain ⟨k, v⟩ := kv
    obtain ⟨f', rfl⟩ : ∃ f', f = f' + 1 := ⟨f - 1, by omega⟩
    have hv : SerParses v := hvals (k, v) (by simp)
    have hq : isJsonWs '"' = false := by decide
    have hc : isJsonWs ':' = false := by decide
    cases t with
    | nil =>
      have hlen : (serFields [(k, v)]).length
          = (escChars k.data).length + (serVal v).length + 3 := by
        rw [serFields, List.length_append, length_serStrChars]
        simp
        omega
      rw [serFields]
      simp only [List.append_assoc, List.cons_append, List.singleton_append]
      simp only [serStrChars, List.cons_append, List.append_assoc,
        List.singleton_append]
      simp only [pFieldsNext, skipWs_cons_not_ws '"' hq]
      rw [pStrChars_escChars k.data f' _ (by omega)]
      simp only [List.nil_append]
      simp only [skipWs_cons_not_ws ':' hc]
      rw [hv f' _ (numStop_brace rest) (by omega)]
      have hb : isJsonWs '}' = false := by decide
      simp only [skipWs_cons_not_ws '}' hb]
    | cons kv2 t2 =>
      have hlen : (serFields ((k, v) :: kv2 :: t2)).length
          = (escChars k.data).length + (serVal v).length
            + (serFields (kv2 :: t2)).length + 4 := by
        rw [serFields]
        simp only [List.length_append, List.length_cons, length_serStrChars]
        omega
      rw [serFields]
      simp only [List.append_assoc, List.cons_append, List.singleton_append]
      simp only [serStrChars, List.cons_append, List.append_assoc,
        List.singleton_append]
      simp only [pFieldsNext, skipWs_cons_not_ws '"' hq]
      rw [pStrChars_escChars k.data f' _ (by omega)]
      simp only [List.nil_append]
      simp only [skipWs_cons_not_ws ':' hc]
      rw [hv f' _ (numStop_comma _) (by omega)]
      have hcm : isJsonWs ',' = false := by decide
      simp only [skipWs_cons_not_ws ',' hcm]
      rw [ih (List.cons_ne_nil _ _) (fun kv hkv => hvals kv (by simp [hkv]))
        f' rest (by omega)]

theorem serFields_cons_head (k : String) (v : Json) (t : List (String × Json)) :
    ∃ X, serFields ((k, v) :: t) = '"' :: X := by
  cases t with
  | nil =>
    refine ⟨(escChars k.data ++ ['"']) ++ ':' :: serVal v, ?_⟩
    rw [serFields, serStrChars]
    simp only [List.cons_append]
  | cons kv2 t2 =>
    refine ⟨(escChars k.data ++ ['"'])
      ++ ':' :: (serVal v ++ ',' :: serFields (kv2 :: t2)), ?_⟩
    rw [serFields, serStrChars]
    simp only [List.cons_append, List.append_assoc]

theorem length_serVal_obj (kvs : List (String × Json)) :
    (serVal (Json.obj kvs)).length = (serFields kvs).length + 2 := by
  rw [serVal]
  simp

/-- A serialized object parses back to itself. -/
theorem serParses_obj (kvs : List (String × Json))
    (hvals : ∀ kv ∈ kvs, SerParses kv.2) : SerParses (.obj kvs) := by
  intro f rest hstop hf
  obtain ⟨f', rfl⟩ : ∃ f', f = f' + 1 := ⟨f - 1, by omega⟩
  have hob : isJsonWs '{' = false := by decide
  have hcb : isJsonWs '}' = false := by decide
  rw [length_serVal_obj] at hf
  cases kvs with
  | nil =>
    show pVal (f' + 1) (('{' :: (serFields [] ++ ['}'])) ++ rest)
      = some (.obj [], rest)
    rw [serFields]
    simp only [List.nil_append, List.cons_append, List.singleton_append]
    simp only [pVal, skipWs_cons_not_ws '{' hob]
    simp [skipWs_cons_not_ws '}' hcb]
  | cons kv t =>
    obtain ⟨k, v⟩ := kv
    obtain ⟨X, hX⟩ := serFields_cons_head k v t
    show pVal (f' + 1) (('{' :: (serFields ((k, v) :: t) ++ ['}'])) ++ rest)
      = some (.obj ((k, v) :: t), rest)
    simp only [List.cons_append, List.append_assoc, List.singleton_append]
    simp only [pVal, skipWs_cons_not_ws '{' hob]
    simp only [List.nil_append]
    have hsw : skipWs (serFields ((k, v) :: t) ++ '}' :: rest)
        = '"' :: (X ++ '}' :: rest) := by
      rw [hX, List.cons_append]
      exact skipWs_cons_not_ws '"' (by decide)
    rw [hsw]
    rw [pFieldsNext_serFields ((k, v) :: t) (List.cons_ne_nil _ _) hvals f'
      rest (by omega)]
    simp

theorem healthyFieldsJson_serParses
    (h : snsTopicSubscriptionDeliveryPolicyHealthyRetryPolicy) :
    ∀ kv ∈ healthyFieldsJson h, SerParses kv.2 := by
  intro kv hkv
  simp only [healthyFieldsJson, List.mem_append] at hkv
  rcases hkv with ((((((hm | hm) | hm) | hm) | hm) | hm) | hm) <;>
    split at hm <;>
    first
      | exact absurd hm (List.not_mem_nil _)
      | (simp only [List.mem_singleton] at hm; subst hm;
         first
           | exact serParses_str _
           | exact serParses_num_int _)

theorem sicklyFieldsJson_serParses
    (h : snsTopicSubscriptionDeliveryPolicySicklyRetryPolicy) :
    ∀ kv ∈ sicklyFieldsJson h, SerParses kv.2 := by
  intro kv hkv
  simp only [sicklyFieldsJson, List.mem_append] at hkv
  rcases hkv with ((((((hm | hm) | hm) | hm) | hm) | hm) | hm) <;>
    split at hm <;>
    first
      | exact absurd hm (List.not_mem_nil _)
      | (simp only [List.mem_singleton] at hm; subst hm;
         first
           | exact serParses_str _
           | exact serParses_num_int _)

theorem throttleFieldsJson_serParses
    (h : snsTopicSubscriptionDeliveryPolicyThrottlePolicy) :
    ∀ kv ∈ throttleFieldsJson h, SerParses kv.2 := by
  intro kv hkv
  rw [throttleFieldsJson] at hkv
  split at hkv
  · simp only [List.mem_singleton] at hkv
    subst hkv
    exact serParses_num_int _
  · exact absurd hkv (List.not_mem_nil _)

theorem deliveryFieldsJson_serParses (p : snsTopicSubscriptionDeliveryPolicy) :
    ∀ kv ∈ deliveryFieldsJson p, SerParses kv.2 := by
  intro kv hkv
  simp only [deliveryFieldsJson, List.mem_append] at hkv
  rcases hkv with ((hm | hm) | hm) | hm
  · split at hm
    · simp only [List.mem_singleton] at hm
      subst hm
      exact serParses_bool _
    · exact absurd hm (List.not_mem_nil _)
  · rcases hp : p.HealthyRetryPolicy with _ | hh <;> rw [hp] at hm
    · simp [healthyPtrFieldJson] at hm
    · simp only [healthyPtrFieldJson, List.mem_singleton] at hm
      subst hm
      exact serParses_obj _ (healthyFieldsJson_serParses hh)
  · rcases hp : p.SicklyRetryPolicy with _ | hh <;> rw [hp] at hm
    · simp [sicklyPtrFieldJson] at hm
    · simp only [sicklyPtrFieldJson, List.mem_singleton] at hm
      subst hm
      exact serParses_obj _ (sicklyFieldsJson_serParses hh)
  · rcases hp : p.ThrottlePolicy with _ | hh <;> rw [hp] at hm
    · simp [throttlePtrFieldJson] at hm
    · simp only [throttlePtrFieldJson, List.mem_singleton] at hm
      subst hm
      exact serParses_obj _ (throttleFieldsJson_serParses hh)

/-- The marshalled delivery policy parses back to exactly the emitted field
list. -/
theorem parseJson_marshal (p : snsTopicSubscriptionDeliveryPolicy) :
    parseJson (snsDeliveryPolicyMarshal p)
      = some (Json.obj (deliveryFieldsJson p)) := by
  unfold parseJson snsDeliveryPolicyMarshal
  have hdata : (String.mk (serVal (Json.obj (deliveryFieldsJson p)))).data
      = serVal (Json.obj (deliveryFieldsJson p)) := rfl
  rw [hdata]
  have hns : numStop ([] : List Char) := by intro c hc; simp at hc
  have hpv : pVal ((serVal (Json.obj (deliveryFieldsJson p))).length + 1)
      (serVal (Json.obj (deliveryFieldsJson p)))
      = some (Json.obj (deliveryFieldsJson p), []) := by
    have := serParses_obj (deliveryFieldsJson p)
      (deliveryFieldsJson_serParses p)
      ((serVal (Json.obj (deliveryFieldsJson p))).length + 1) [] hns (by simp)
    rwa [List.append_nil] at this
  rw [hpv]
  simp [skipWs]

/-! ### Unmarshal/marshal roundtrip on the schema structs -/

theorem decodeHealthyFields_append (l1 l2 : List (String × Json))
    (p : snsTopicSubscriptionDeliveryPolicyHealthyRetryPolicy) :
    decodeHealthyFields (l1 ++ l2) p
      = (decodeHealthyFields l1 p).bind (fun q => decodeHealthyFields l2 q) := by
  induction l1 generalizing p with
  | nil => simp [decodeHealthyFields]
  | cons kv t ih =>
    obtain ⟨k, v⟩ := kv
    simp only [List.cons_append, decodeHealthyFields]
    cases h : decodeHealthyField p k v with
    | none => simp
    | some q => simpa using ih q

theorem decodeSicklyFields_append (l1 l2 : List (String × Json))
    (p : snsTopicSubscriptionDeliveryPolicySicklyRetryPolicy) :
    decodeSicklyFields (l1 ++ l2) p
      = (decodeSicklyFields l1 p).bind (fun q => decodeSicklyFields l2 q) := by
  induction l1 generalizing p with
  | nil => simp [decodeSicklyFields]
  | cons kv t ih =>
    obtain ⟨k, v⟩ := kv
    simp only [List.cons_append, decodeSicklyFields]
    cases h : decodeSicklyField p k v with
    | none => simp
    | some q => simpa using ih q

theorem decodeDeliveryFields_append (l1 l2 : List (String × Json))
    (p : snsTopicSubscriptionDeliveryPolicy) :
    decodeDeliveryFields (l1 ++ l2) p
      = (decodeDeliveryFields l1 p).bind (fun q => decodeDeliveryFields l2 q) := by
  induction l1 generalizing p with
  | nil => simp [decodeDeliveryFields]
  | cons kv t ih =>
    obtain ⟨k, v⟩ := kv
    simp only [List.cons_append, decodeDeliveryFields]
    cases h : decodeDeliveryField p k v with
    | none => simp
    | some q => simpa using ih q

/-- All integer fields fit Go's `int` (they do whenever the struct was
produced by unmarshalling). -/
def healthyInRange (h : snsTopicSubscriptionDeliveryPolicyHealthyRetryPolicy) :
    Prop :=
  intFitsInt64 h.MaxDelayTarget = true ∧ intFitsInt64 h.MinDelayTarget = true ∧
  intFitsInt64 h.NumMaxDelayRetries = true ∧
  intFitsInt64 h.NumMinDelayRetries = true ∧
  intFitsInt64 h.NumNoDelayRetries = true ∧ intFitsInt64 h.NumRetries = true

/-- See `healthyInRange`. -/
def sicklyInRange (h : snsTopicSubscriptionDeliveryPolicySicklyRetryPolicy) :
    Prop :=
  intFitsInt64 h.MaxDelayTarget = true ∧ intFitsInt64 h.MinDelayTarget = true ∧
  intFitsInt64 h.NumMaxDelayRetries = true ∧
  intFitsInt64 h.NumMinDelayRetries = true ∧
  intFitsInt64 h.NumNoDelayRetries = true ∧ intFitsInt64 h.NumRetries = true

/-- See `healthyInRange`. -/
def throttleInRange (h : snsTopicSubscriptionDeliveryPolicyThrottlePolicy) :
    Prop :=
  intFitsInt64 h.MaxReceivesPerSecond = true

/-- See `healthyInRange`. -/
def deliveryInRange (p : snsTopicSubscriptionDeliveryPolicy) : Prop :=
  (∀ h, p.HealthyRetryPolicy = some h → healthyInRange h) ∧
  (∀ h, p.SicklyRetryPolicy = some h → sicklyInRange h) ∧
  (∀ h, p.ThrottlePolicy = some h → throttleInRange h)

theorem decodeHealthyFields_roundtrip
    (h : snsTopicSubscriptionDeliveryPolicyHealthyRetryPolicy)
    (hin : healthyInRange h) :
    decodeHealthyFields (healthyFieldsJson h) {} = some h := by
  obtain ⟨b, m1, m2, n1, n2, n3, n4⟩ := h
  obtain ⟨i1, i2, i3, i4, i5, i6⟩ := hin
  have blockB : ∀ q, decodeHealthyFields
      (if b ≠ "" then [("backoffFunction", Json.str b)] else []) q
      = some { q with BackoffFunction := if b ≠ "" then b else q.BackoffFunction } := by
    intro q
    by_cases hb : b = ""
    · simp [hb, decodeHealthyFields]
    · simp [hb, decodeHealthyFields, decodeHealthyField, jsonStrValue,
        (by decide : strEqualFold "backoffFunction" "backoffFunction" = true)]
  have blockM1 : ∀ q, decodeHealthyFields
      (if m1 ≠ 0 then [("maxDelayTarget", Json.num true m1)] else []) q
      = some { q with MaxDelayTarget := if m1 ≠ 0 then m1 else q.MaxDelayTarget } := by
    intro q
    by_cases hm : m1 = 0
    · simp [hm, decodeHealthyFields]
    · simp [hm, decodeHealthyFields, decodeHealthyField, jsonIntValue, i1,
        (by decide : strEqualFold "maxDelayTarget" "backoffFunction" = false),
        (by decide : strEqualFold "maxDelayTarget" "maxDelayTarget" = true)]
  have blockM2 : ∀ q, decodeHealthyFields
      (if m2 ≠ 0 then [("minDelayTarget", Json.num true m2)] else []) q
      = some { q with MinDelayTarget := if m2 ≠ 0 then m2 else q.MinDelayTarget } := by
    intro q
    by_cases hm : m2 = 0
    · simp [hm, decodeHealthyFields]
    · simp [hm, decodeHealthyFields, decodeHealthyField, jsonIntValue, i2,
        (by decide : strEqualFold "minDelayTarget" "backoffFunction" = false),
        (by decide : strEqualFold "minDelayTarget" "maxDelayTarget" = false),
        (by decide : strEqualFold "minDelayTarget" "minDelayTarget" = true)]
  have blockN1 : ∀ q, decodeHealthyFields
      (if n1 ≠ 0 then [("numMaxDelayRetries", Json.num true n1)] else []) q
      = some { q with NumMaxDelayRetries :=
          if n1 ≠ 0 then n1 else q.NumMaxDelayRetries } := by
    intro q
    by_cases hm : n1 = 0
    · simp [hm, decodeHealthyFields]
    · simp [hm, decodeHealthyFields, decodeHealthyField, jsonIntValue, i3,
        (by decide : strEqualFold "numMaxDelayRetries" "backoffFunction" = false),
        (by decide : strEqualFold "numMaxDelayRetries" "maxDelayTarget" = false),
        (by decide : strEqualFold "numMaxDelayRetries" "minDelayTarget" = false),
        (by decide : strEqualFold "numMaxDelayRetries" "numMaxDelayRetries" = true)]
  have blockN2 : ∀ q, decodeHealthyFields
      (if n2 ≠ 0 then [("numMinDelayRetries", Json.num true n2)] else []) q
      = some { q with NumMinDelayRetries :=
          if n2 ≠ 0 then n2 else q.NumMinDelayRetries } := by
    intro q
    by_cases hm : n2 = 0
    · simp [hm, decodeHealthyFields]
    · simp [hm, decodeHealthyFields, decodeHealthyField, jsonIntValue, i4,
        (by decide : strEqualFold "numMinDelayRetries" "backoffFunction" = false),
        (by decide : strEqualFold "numMinDelayRetries" "maxDelayTarget" = false),
        (by decide : strEqualFold "numMinDelayRetries" "minDelayTarget" = false),
        (by decide : strEqualFold "numMinDelayRetries" "numMaxDelayRetries" = false),
        (by decide : strEqualFold "numMinDelayRetries" "numMinDelayRetries" = true)]
  have blockN3 : ∀ q, decodeHealthyFields
      (if n3 ≠ 0 then [("numNoDelayRetries", Json.num true n3)] else []) q
      = some { q with NumNoDelayRetries :=
          if n3 ≠ 0 then n3 else q.NumNoDelayRetries } := by
    intro q
    by_cases hm : n3 = 0
    · simp [hm, decodeHealthyFields]
    · simp [hm, decodeHealthyFields, decodeHealthyField, jsonIntValue, i5,
        (by decide : strEqualFold "numNoDelayRetries" "backoffFunction" = false),
        (by decide : strEqualFold "numNoDelayRetries" "maxDelayTarget" = false),
        (by decide : strEqualFold "numNoDelayRetries" "minDelayTarget" = false),
        (by decide : strEqualFold "numNoDelayRetries" "numMaxDelayRetries" = false),
        (by decide : strEqualFold "numNoDelayRetries" "numMinDelayRetries" = false),
        (by decide : strEqualFold "numNoDelayRetries" "numNoDelayRetries" = true)]
  have blockN4 : ∀ q, decodeHealthyFields
      (if n4 ≠ 0 then [("numRetries", Json.num true n4)] else []) q
      = some { q with NumRetries := if n4 ≠ 0 then n4 else q.NumRetries } := by
    intro q
    by_cases hm : n4 = 0
    · simp [hm, decodeHealthyFields]
    · simp [hm, decodeHealthyFields, decodeHealthyField, jsonIntValue, i6,
        (by decide : strEqualFold "numRetries" "backoffFunction" = false),
        (by decide : strEqualFold "numRetries" "maxDelayTarget" = false),
        (by decide : strEqualFold "numRetries" "minDelayTarget" = false),
        (by decide : strEqualFold "numRetries" "numMaxDelayRetries" = false),
        (by decide : strEqualFold "numRetries" "numMinDelayRetries" = false),
        (by decide : strEqualFold "numRetries" "numNoDelayRetries" = false),
        (by decide : strEqualFold "numRetries" "numRetries" = true)]
  rw [healthyFieldsJson]
  simp only [decodeHealthyFields_append, blockB, blockM1, blockM2, blockN1,
    blockN2, blockN3, blockN4, Option.some_bind]
  refine congrArg some ?_
  refine snsTopicSubscriptionDeliveryPolicyHealthyRetryPolicy.mk.injEq .. |>.mpr ?_
  refine ⟨?_, ?_, ?_, ?_, ?_, ?_, ?_⟩ <;> (split <;> simp_all)

theorem decodeSicklyFields_roundtrip
    (h : snsTopicSubscriptionDeliveryPolicySicklyRetryPolicy)
    (hin : sicklyInRange h) :
    decodeSicklyFields (sicklyFieldsJson h) {} = some h := by
  obtain ⟨b, m1, m2, n1, n2, n3, n4⟩ := h
  obtain ⟨i1, i2, i3, i4, i5, i6⟩ := hin
  have blockB : ∀ q, decodeSicklyFields
      (if b ≠ "" then [("backoffFunction", Json.str b)] else []) q
      = some { q with BackoffFunction := if b ≠ "" then b else q.BackoffFunction } := by
    intro q
    by_cases hb : b = ""
    · simp [hb, decodeSicklyFields]
    · simp [hb, decodeSicklyFields, decodeSicklyField, jsonStrValue,
        (by decide : strEqualFold "backoffFunction" "backoffFunction" = true)]
  have blockM1 : ∀ q, decodeSicklyFields
      (if m1 ≠ 0 then [("maxDelayTarget", Json.num true m1)] else []) q
      = some { q with MaxDelayTarget := if m1 ≠ 0 then m1 else q.MaxDelayTarget } := by
    intro q
    by_cases hm : m1 = 0
    · simp [hm, decodeSicklyFields]
    · simp [hm, decodeSicklyFields, decodeSicklyField, jsonIntValue, i1,
        (by decide : strEqualFold "maxDelayTarget" "backoffFunction" = false),
        (by decide : strEqualFold "maxDelayTarget" "maxDelayTarget" = true)]
  have blockM2 : ∀ q, decodeSicklyFields
      (if m2 ≠ 0 then [("minDelayTarget", Json.num true m2)] else []) q
      = some { q with MinDelayTarget := if m2 ≠ 0 then m2 else q.MinDelayTarget } := by
    intro q
    by_cases hm : m2 = 0
    · simp [hm, decodeSicklyFields]
    · simp [hm, decodeSicklyFields, decodeSicklyField, jsonIntValue, i2,
        (by decide : strEqualFold "minDelayTarget" "backoffFunction" = false),
        (by decide : strEqualFold "minDelayTarget" "maxDelayTarget" = false),
        (by decide : strEqualFold "minDelayTarget" "minDelayTarget" = true)]
  have blockN1 : ∀ q, decodeSicklyFields
      (if n1 ≠ 0 then [("numMaxDelayRetries", Json.num true n1)] else []) q
      = some { q with NumMaxDelayRetries :=
          if n1 ≠ 0 then n1 else q.NumMaxDelayRetries } := by
    intro q
    by_cases hm : n1 = 0
    · simp [hm, decodeSicklyFields]
    · simp [hm, decodeSicklyFields, decodeSicklyField, jsonIntValue, i3,
        (by decide : strEqualFold "numMaxDelayRetries" "backoffFunction" = false),
        (by decide : strEqualFold "numMaxDelayRetries" "maxDelayTarget" = false),
        (by decide : strEqualFold "numMaxDelayRetries" "minDelayTarget" = false),
        (by decide : strEqualFold "numMaxDelayRetries" "numMaxDelayRetries" = true)]
  have blockN2 : ∀ q, decodeSicklyFields
      (if n2 ≠ 0 then [("numMinDelayRetries", Json.num true n2)] else []) q
      = some { q with NumMinDelayRetries :=
          if n2 ≠ 0 then n2 else q.NumMinDelayRetries } := by
    intro q
    by_cases hm : n2 = 0
    · simp [hm, decodeSicklyFields]
    · simp [hm, decodeSicklyFields, decodeSicklyField, jsonIntValue, i4,
        (by decide : strEqualFold "numMinDelayRetries" "backoffFunction" = false),
        (by decide : strEqualFold "numMinDelayRetries" "maxDelayTarget" = false),
        (by decide : strEqualFold "numMinDelayRetries" "minDelayTarget" = false),
        (by decide : strEqualFold "numMinDelayRetries" "numMaxDelayRetries" = false),
        (by decide : strEqualFold "numMinDelayRetries" "numMinDelayRetries" = true)]
  have blockN3 : ∀ q, decodeSicklyFields
      (if n3 ≠ 0 then [("numNoDelayRetries", Json.num true n3)] else []) q
      = some { q with NumNoDelayRetries :=
          if n3 ≠ 0 then n3 else q.NumNoDelayRetries } := by
    intro q
    by_cases hm : n3 = 0
    · simp [hm, decodeSicklyFields]
    · simp [hm, decodeSicklyFields, decodeSicklyField, jsonIntValue, i5,
        (by decide : strEqualFold "numNoDelayRetries" "backoffFunction" = false),
        (by decide : strEqualFold "numNoDelayRetries" "maxDelayTarget" = false),
        (by decide : strEqualFold "numNoDelayRetries" "minDelayTarget" = false),
        (by decide : strEqualFold "numNoDelayRetries" "numMaxDelayRetries" = false),
        (by decide : strEqualFold "numNoDelayRetries" "numMinDelayRetries" = false),
        (by decide : strEqualFold "numNoDelayRetries" "numNoDelayRetries" = true)]
  have blockN4 : ∀ q, decodeSicklyFields
      (if n4 ≠ 0 then [("numRetries", Json.num true n4)] else []) q
      = some { q with NumRetries := if n4 ≠ 0 then n4 else q.NumRetries } := by
    intro q
    by_cases hm : n4 = 0
    · simp [hm, decodeSicklyFields]
    · simp [hm, decodeSicklyFields, decodeSicklyField, jsonIntValue, i6,
        (by decide : strEqualFold "numRetries" "backoffFunction" = false),
        (by decide : strEqualFold "numRetries" "maxDelayTarget" = false),
        (by decide : strEqualFold "numRetries" "minDelayTarget" = false),
        (by decide : strEqualFold "numRetries" "numMaxDelayRetries" = false),
        (by decide : strEqualFold "numRetries" "numMinDelayRetries" = false),
        (by decide : strEqualFold "numRetries" "numNoDelayRetries" = false),
        (by decide : strEqualFold "numRetries" "numRetries" = true)]
  rw [sicklyFieldsJson]
  simp only [decodeSicklyFields_append, blockB, blockM1, blockM2, blockN1,
    blockN2, blockN3, blockN4, Option.some_bind]
  refine congrArg some ?_
  refine snsTopicSubscriptionDeliveryPolicySicklyRetryPolicy.mk.injEq .. |>.mpr ?_
  refine ⟨?_, ?_, ?_, ?_, ?_, ?_, ?_⟩ <;> (split <;> simp_all)

theorem decodeThrottleFields_roundtrip
    (h : snsTopicSubscriptionDeliveryPolicyThrottlePolicy)
    (hin : throttleInRange h) :
    decodeThrottleFields (throttleFieldsJson h) {} = some h := by
  obtain ⟨m⟩ := h
  have hm2 : intFitsInt64 m = true := hin
  rw [throttleFieldsJson]
  by_cases hm : m = 0
  · simp [hm, decodeThrottleFields]
  · simp [hm, decodeThrottleFields, decodeThrottleField, jsonIntValue, hm2,
      (by decide :
        strEqualFold "maxReceivesPerSecond" "maxReceivesPerSecond" = true)]

theorem decodeDeliveryFields_roundtrip (p : snsTopicSubscriptionDeliveryPolicy)
    (hin : deliveryInRange p) :
    decodeDeliveryFields (deliveryFieldsJson p) {} = some p := by
  obtain ⟨g, oh, os, ot⟩ := p
  obtain ⟨ih1, ih2, ih3⟩ := hin
  have blockG : ∀ q : snsTopicSubscriptionDeliveryPolicy,
      decodeDeliveryFields
        (if g = true then [("guaranteed", Json.bool true)] else []) q
        = some { q with Guaranteed := if g = true then true else q.Guaranteed } := by
    intro q
    cases g
    · simp [decodeDeliveryFields]
    · simp [decodeDeliveryFields, decodeDeliveryField, jsonBoolValue,
        (by decide : strEqualFold "guaranteed" "guaranteed" = true)]
  have blockH : ∀ q : snsTopicSubscriptionDeliveryPolicy,
      q.HealthyRetryPolicy = none →
      decodeDeliveryFields (healthyPtrFieldJson oh) q
        = some { q with HealthyRetryPolicy := oh } := by
    intro q hq
    rcases oh with _ | hh
    · rw [healthyPtrFieldJson, ← hq, decodeDeliveryFields]
    · simp [healthyPtrFieldJson, decodeDeliveryFields, decodeDeliveryField,
        decodeHealthyPtr, hq,
        decodeHealthyFields_roundtrip hh (ih1 hh rfl),
        (by decide : strEqualFold "healthyRetryPolicy" "guaranteed" = false),
        (by decide :
          strEqualFold "healthyRetryPolicy" "healthyRetryPolicy" = true)]
  have blockS : ∀ q : snsTopicSubscriptionDeliveryPolicy,
      q.SicklyRetryPolicy = none →
      decodeDeliveryFields (sicklyPtrFieldJson os) q
        = some { q with SicklyRetryPolicy := os } := by
    intro q hq
    rcases os with _ | hh
    · rw [sicklyPtrFieldJson, ← hq, decodeDeliveryFields]
    · simp [sicklyPtrFieldJson, decodeDeliveryFields, decodeDeliveryField,
        decodeSicklyPtr, hq,
        decodeSicklyFields_roundtrip hh (ih2 hh rfl),
        (by decide : strEqualFold "sicklyRetryPolicy" "guaranteed" = false),
        (by decide :
          strEqualFold "sicklyRetryPolicy" "healthyRetryPolicy" = false),
        (by decide : strEqualFold "sicklyRetryPolicy" "sicklyRetryPolicy" = true)]
  have blockT : ∀ q : snsTopicSubscriptionDeliveryPolicy,
      q.ThrottlePolicy = none →
      decodeDeliveryFields (throttlePtrFieldJson ot) q
        = some { q with ThrottlePolicy := ot } := by
    intro q hq
    rcases ot with _ | hh
    · rw [throttlePtrFieldJson, ← hq, decodeDeliveryFields]
    · simp [throttlePtrFieldJson, decodeDeliveryFields, decodeDeliveryField,
        decodeThrottlePtr, hq,
        decodeThrottleFields_roundtrip hh (ih3 hh rfl),
        (by decide : strEqualFold "throttlePolicy" "guaranteed" = false),
        (by decide : strEqualFold "throttlePolicy" "healthyRetryPolicy" = false),
        (by decide : strEqualFold "throttlePolicy" "sicklyRetryPolicy" = false),
        (by decide : strEqualFold "throttlePolicy" "throttlePolicy" = true)]
  rw [deliveryFieldsJson]
  simp only [decodeDeliveryFields_append]
  rw [blockG]
  simp only [Option.some_bind]
  rw [blockH _ rfl]
  simp only [Option.some_bind]
  rw [blockS _ rfl]
  simp only [Option.some_bind]
  rw [blockT _ rfl]
  cases g <;> rfl

/-! ### Unmarshalled structs are in range -/

theorem jsonIntValue_fits {v : Json} {o : Option Int}
    (h : jsonIntValue v = some o) : ∀ i, o = some i → intFitsInt64 i = true := by
  intro i hi
  subst hi
  cases v with
  | num isInt j =>
    cases isInt
    · simp [jsonIntValue] at h
    · rw [jsonIntValue] at h
      split at h
      · next hf =>
        injection h with h'
        injection h' with h''
        subst h''
        exact hf
      · cases h
  | null =>
    rw [jsonIntValue] at h
    injection h with h'
    cases h'
  | bool b => simp [jsonIntValue] at h
  | str s => simp [jsonIntValue] at h
  | arr vs => simp [jsonIntValue] at h
  | obj kvs => simp [jsonIntValue] at h

theorem healthyInRange_default :
    healthyInRange ({} : snsTopicSubscriptionDeliveryPolicyHealthyRetryPolicy) :=
  ⟨by decide, by decide, by decide, by decide, by decide, by decide⟩

theorem sicklyInRange_default :
    sicklyInRange ({} : snsTopicSubscriptionDeliveryPolicySicklyRetryPolicy) :=
  ⟨by decide, by decide, by decide, by decide, by decide, by decide⟩

theorem throttleInRange_default :
    throttleInRange ({} : snsTopicSubscriptionDeliveryPolicyThrottlePolicy) := by
  unfold throttleInRange
  decide

theorem deliveryInRange_default :
    deliveryInRange ({} : snsTopicSubscriptionDeliveryPolicy) := by
  refine ⟨?_, ?_, ?_⟩ <;> intro x hx <;> exact Option.noConfusion hx

theorem decodeHealthyField_inRange
    {p q : snsTopicSubscriptionDeliveryPolicyHealthyRetryPolicy} {k : String}
    {v : Json} (h : decodeHealthyField p k v = some q)
    (hp : healthyInRange p) : healthyInRange q := by
  obtain ⟨i1, i2, i3, i4, i5, i6⟩ := hp
  unfold decodeHealthyField at h
  split_ifs at h
  · rw [Option.map_eq_some'] at h
    obtain ⟨o, ho, rfl⟩ := h
    cases o <;> exact ⟨i1, i2, i3, i4, i5, i6⟩
  · rw [Option.map_eq_some'] at h
    obtain ⟨o, ho, rfl⟩ := h
    cases o with
    | none => exact ⟨i1, i2, i3, i4, i5, i6⟩
    | some i => exact ⟨jsonIntValue_fits ho i rfl, i2, i3, i4, i5, i6⟩
  · rw [Option.map_eq_some'] at h
    obtain ⟨o, ho, rfl⟩ := h
    cases o with
    | none => exact ⟨i1, i2, i3, i4, i5, i6⟩
    | some i => exact ⟨i1, jsonIntValue_fits ho i rfl, i3, i4, i5, i6⟩
  · rw [Option.map_eq_some'] at h
    obtain ⟨o, ho, rfl⟩ := h
    cases o with
    | none => exact ⟨i1, i2, i3, i4, i5, i6⟩
    | some i => exact ⟨i1, i2, jsonIntValue_fits ho i rfl, i4, i5, i6⟩
  · rw [Option.map_eq_some'] at h
    obtain ⟨o, ho, rfl⟩ := h
    cases o with
    | none => exact ⟨i1, i2, i3, i4, i5, i6⟩
    | some i => exact ⟨i1, i2, i3, jsonIntValue_fits ho i rfl, i5, i6⟩
  · rw [Option.map_eq_some'] at h
    obtain ⟨o, ho, rfl⟩ := h
    cases o with
    | none => exact ⟨i1, i2, i3, i4, i5, i6⟩
    | some i => exact ⟨i1, i2, i3, i4, jsonIntValue_fits ho i rfl, i6⟩
  · rw [Option.map_eq_some'] at h
    obtain ⟨o, ho, rfl⟩ := h
    cases o with
    | none => exact ⟨i1, i2, i3, i4, i5, i6⟩
    | some i => exact ⟨i1, i2, i3, i4, i5, jsonIntValue_fits ho i rfl⟩
  · obtain rfl := Option.some_inj.mp h
    exact ⟨i1, i2, i3, i4, i5, i6⟩

theorem decodeHealthyFields_inRange :
    ∀ (kvs : List (String × Json))
      (p q : snsTopicSubscriptionDeliveryPolicyHealthyRetryPolicy),
      decodeHealthyFields kvs p = some q → healthyInRange p →
      healthyInRange q := by
  intro kvs
  induction kvs with
  | nil =>
    intro p q h hp
    rw [decodeHealthyFields] at h
    obtain rfl := Option.some_inj.mp h
    exact hp
  | cons kv t ih =>
    intro p q h hp
    obtain ⟨k, v⟩ := kv
    rw [decodeHealthyFields] at h
    cases hd : decodeHealthyField p k v with
    | none => rw [hd] at h; cases h
    | some p' =>
      rw [hd] at h
      exact ih p' q h (decodeHealthyField_inRange hd hp)

theorem decodeSicklyField_inRange
    {p q : snsTopicSubscriptionDeliveryPolicySicklyRetryPolicy} {k : String}
    {v : Json} (h : decodeSicklyField p k v = some q)
    (hp : sicklyInRange p) : sicklyInRange q := by
  obtain ⟨i1, i2, i3, i4, i5, i6⟩ := hp
  unfold decodeSicklyField at h
  split_ifs at h
  · rw [Option.map_eq_some'] at h
    obtain ⟨o, ho, rfl⟩ := h
    cases o <;> exact ⟨i1, i2, i3, i4, i5, i6⟩
  · rw [Option.map_eq_some'] at h
    obtain ⟨o, ho, rfl⟩ := h
    cases o with
    | none => exact ⟨i1, i2, i3, i4, i5, i6⟩
    | some i => exact ⟨jsonIntValue_fits ho i rfl, i2, i3, i4, i5, i6⟩
  · rw [Option.map_eq_some'] at h
    obtain ⟨o, ho, rfl⟩ := h
    cases o with
    | none => exact ⟨i1, i2, i3, i4, i5, i6⟩
    | some i => exact ⟨i1, jsonIntValue_fits ho i rfl, i3, i4, i5, i6⟩
  · rw [Option.map_eq_some'] at h
    obtain ⟨o, ho, rfl⟩ := h
    cases o with
    | none => exact ⟨i1, i2, i3, i4, i5, i6⟩
    | some i => exact ⟨i1, i2, jsonIntValue_fits ho i rfl, i4, i5, i6⟩
  · rw [Option.map_eq_some'] at h
    obtain ⟨o, ho, rfl⟩ := h
    cases o with
    | none => exact ⟨i1, i2, i3, i4, i5, i6⟩
    | some i => exact ⟨i1, i2, i3, jsonIntValue_fits ho i rfl, i5, i6⟩
  · rw [Option.map_eq_some'] at h
    obtain ⟨o, ho, rfl⟩ := h
    cases o with
    | none => exact ⟨i1, i2, i3, i4, i5, i6⟩
    | some i => exact ⟨i1, i2, i3, i4, jsonIntValue_fits ho i rfl, i6⟩
  · rw [Option.map_eq_some'] at h
    obtain ⟨o, ho, rfl⟩ := h
    cases o with
    | none => exact ⟨i1, i2, i3, i4, i5, i6⟩
    | some i => exact ⟨i1, i2, i3, i4, i5, jsonIntValue_fits ho i rfl⟩
  · obtain rfl := Option.some_inj.mp h
    exact ⟨i1, i2, i3, i4, i5, i6⟩

theorem decodeSicklyFields_inRange :
    ∀ (kvs : List (String × Json))
      (p q : snsTopicSubscriptionDeliveryPolicySicklyRetryPolicy),
      decodeSicklyFields kvs p = some q → sicklyInRange p →
      sicklyInRange q := by
  intro kvs
  induction kvs with
  | nil =>
    intro p q h hp
    rw [decodeSicklyFields] at h
    obtain rfl := Option.some_inj.mp h
    exact hp
  | cons kv t ih =>
    intro p q h hp
    obtain ⟨k, v⟩ := kv
    rw [decodeSicklyFields] at h
    cases hd : decodeSicklyField p k v with
    | none => rw [hd] at h; cases h
    | some p' =>
      rw [hd] at h
      exact ih p' q h (decodeSicklyField_inRange hd hp)

theorem decodeThrottleField_inRange
    {p q : snsTopicSubscriptionDeliveryPolicyThrottlePolicy} {k : String}
    {v : Json} (h : decodeThrottleField p k v = some q)
    (hp : throttleInRange p) : throttleInRange q := by
  unfold decodeThrottleField at h
  split_ifs at h
  · rw [Option.map_eq_some'] at h
    obtain ⟨o, ho, rfl⟩ := h
    cases o with
    | none => exact hp
    | some i => exact jsonIntValue_fits ho i rfl
  · obtain rfl := Option.some_inj.mp h
    exact hp

theorem decodeThrottleFields_inRange :
    ∀ (kvs : List (String × Json))
      (p q : snsTopicSubscriptionDeliveryPolicyThrottlePolicy),
      decodeThrottleFields kvs p = some q → throttleInRange p →
      throttleInRange q := by
  intro kvs
  induction kvs with
  | nil =>
    intro p q h hp
    rw [decodeThrottleFields] at h
    obtain rfl := Option.some_inj.mp h
    exact hp
  | cons kv t ih =>
    intro p q h hp
    obtain ⟨k, v⟩ := kv
    rw [decodeThrottleFields] at h
    cases hd : decodeThrottleField p k v with
    | none => rw [hd] at h; cases h
    | some p' =>
      rw [hd] at h
      exact ih p' q h (decodeThrottleField_inRange hd hp)

theorem decodeHealthyPtr_inRange
    {cur : Option snsTopicSubscriptionDeliveryPolicyHealthyRetryPolicy}
    {v : Json} {o : Option snsTopicSubscriptionDeliveryPolicyHealthyRetryPolicy}
    (h : decodeHealthyPtr cur v = some o)
    (hcur : ∀ h0, cur = some h0 → healthyInRange h0) :
    ∀ hh, o = some hh → healthyInRange hh := by
  intro hh ho
  subst ho
  cases v with
  | null =>
    rw [decodeHealthyPtr] at h
    injection h with h'
    cases h'
  | obj kvs =>
    rw [decodeHealthyPtr, Option.map_eq_some'] at h
    obtain ⟨h0, hdec, hs⟩ := h
    obtain rfl := Option.some_inj.mp hs
    refine decodeHealthyFields_inRange kvs _ h0 hdec ?_
    cases cur with
    | none => exact healthyInRange_default
    | some c => exact hcur c rfl
  | bool b => simp [decodeHealthyPtr] at h
  | num isInt i => simp [decodeHealthyPtr] at h
  | str s => simp [decodeHealthyPtr] at h
  | arr vs => simp [decodeHealthyPtr] at h

theorem decodeSicklyPtr_inRange
    {cur : Option snsTopicSubscriptionDeliveryPolicySicklyRetryPolicy}
    {v : Json} {o : Option snsTopicSubscriptionDeliveryPolicySicklyRetryPolicy}
    (h : decodeSicklyPtr cur v = some o)
    (hcur : ∀ h0, cur = some h0 → sicklyInRange h0) :
    ∀ hh, o = some hh → sicklyInRange hh := by
  intro hh ho
  subst ho
  cases v with
  | null =>
    rw [decodeSicklyPtr] at h
    injection h with h'
    cases h'
  | obj kvs =>
    rw [decodeSicklyPtr, Option.map_eq_some'] at h
    obtain ⟨h0, hdec, hs⟩ := h
    obtain rfl := Option.some_inj.mp hs
    refine decodeSicklyFields_inRange kvs _ h0 hdec ?_
    cases cur with
    | none => exact sicklyInRange_default
    | some c => exact hcur c rfl
  | bool b => simp [decodeSicklyPtr] at h
  | num isInt i => simp [decodeSicklyPtr] at h
  | str s => simp [decodeSicklyPtr] at h
  | arr vs => simp [decodeSicklyPtr] at h

theorem decodeThrottlePtr_inRange
    {cur : Option snsTopicSubscriptionDeliveryPolicyThrottlePolicy}
    {v : Json} {o : Option snsTopicSubscriptionDeliveryPolicyThrottlePolicy}
    (h : decodeThrottlePtr cur v = some o)
    (hcur : ∀ h0, cur = some h0 → throttleInRange h0) :
    ∀ hh, o = some hh → throttleInRange hh := by
  intro hh ho
  subst ho
  cases v with
  | null =>
    rw [decodeThrottlePtr] at h
    injection h with h'
    cases h'
  | obj kvs =>
    rw [decodeThrottlePtr, Option.map_eq_some'] at h
    obtain ⟨h0, hdec, hs⟩ := h
    obtain rfl := Option.some_inj.mp hs
    refine decodeThrottleFields_inRange kvs _ h0 hdec ?_
    cases cur with
    | none => exact throttleInRange_default
    | some c => exact hcur c rfl
  | bool b => simp [decodeThrottlePtr] at h
  | num isInt i => simp [decodeThrottlePtr] at h
  | str s => simp [decodeThrottlePtr] at h
  | arr vs => simp [decodeThrottlePtr] at h

theorem decodeDeliveryField_inRange
    {p q : snsTopicSubscriptionDeliveryPolicy} {k : String} {v : Json}
    (h : decodeDeliveryField p k v = some q)
    (hp : deliveryInRange p) : deliveryInRange q := by
  obtain ⟨h1, h2, h3⟩ := hp
  unfold decodeDeliveryField at h
  split_ifs at h
  · rw [Option.map_eq_some'] at h
    obtain ⟨o, ho, rfl⟩ := h
    cases o <;> exact ⟨h1, h2, h3⟩
  · rw [Option.map_eq_some'] at h
    obtain ⟨o, ho, rfl⟩ := h
    exact ⟨decodeHealthyPtr_inRange ho h1, h2, h3⟩
  · rw [Option.map_eq_some'] at h
    obtain ⟨o, ho, rfl⟩ := h
    exact ⟨h1, decodeSicklyPtr_inRange ho h2, h3⟩
  · rw [Option.map_eq_some'] at h
    obtain ⟨o, ho, rfl⟩ := h
    exact ⟨h1, h2, decodeThrottlePtr_inRange ho h3⟩
  · obtain rfl := Option.some_inj.mp h
    exact ⟨h1, h2, h3⟩

theorem decodeDeliveryFields_inRange :
    ∀ (kvs : List (String × Json)) (p q : snsTopicSubscriptionDeliveryPolicy),
      decodeDeliveryFields kvs p = some q → deliveryInRange p →
      deliveryInRange q := by
  intro kvs
  induction kvs with
  | nil =>
    intro p q h hp
    rw [decodeDeliveryFields] at h
    obtain rfl := Option.some_inj.mp h
    exact hp
  | cons kv t ih =>
    intro p q h hp
    obtain ⟨k, v⟩ := kv
    rw [decodeDeliveryFields] at h
    cases hd : decodeDeliveryField p k v with
    | none => rw [hd] at h; cases h
    | some p' =>
      rw [hd] at h
      exact ih p' q h (decodeDeliveryField_inRange hd hp)

/-- Any struct produced by `snsDeliveryPolicyUnmarshal` has every integer
field within the `int64` range (Go would have rejected an out-of-range
number during `Unmarshal`). -/
theorem snsDeliveryPolicyUnmarshal_inRange {j : Json}
    {p : snsTopicSubscriptionDeliveryPolicy}
    (h : snsDeliveryPolicyUnmarshal j = some p) : deliveryInRange p := by
  cases j with
  | null =>
    rw [snsDeliveryPolicyUnmarshal] at h
    obtain rfl := Option.some_inj.mp h
    exact deliveryInRange_default
  | obj kvs =>
    rw [snsDeliveryPolicyUnmarshal] at h
    exact decodeDeliveryFields_inRange kvs {} p h deliveryInRange_default
  | bool b => simp [snsDeliveryPolicyUnmarshal] at h
  | num isInt i => simp [snsDeliveryPolicyUnmarshal] at h
  | str s => simp [snsDeliveryPolicyUnmarshal] at h
  | arr vs => simp [snsDeliveryPolicyUnmarshal] at h

/-- C4: normalization of a delivery-policy JSON text (parse into the fixed
schema with `json.Unmarshal`, re-serialize with `json.Marshal` and
`omitempty`) is idempotent: whenever `normalize T` succeeds with result `U`,
`normalize U` succeeds and returns `U` itself (so
`normalize (normalize T) = normalize T` for every valid policy text `T`). -/
theorem C4_normalize_idempotent :
    ∀ (t u : String), snsNormalizeDeliveryPolicy t = some u →
      snsNormalizeDeliveryPolicy u = some u := by
  intro t u h
  cases hp : parseJson t with
  | none => simp [snsNormalizeDeliveryPolicy, hp] at h
  | some j =>
    cases hu : snsDeliveryPolicyUnmarshal j with
    | none => simp [snsNormalizeDeliveryPolicy, hp, hu] at h
    | some p =>
      have hmu : snsDeliveryPolicyMarshal p = u := by
        simp only [snsNormalizeDeliveryPolicy, hp, hu] at h
        exact Option.some_inj.mp h
      subst hmu
      have hput : snsDeliveryPolicyUnmarshal (Json.obj (deliveryFieldsJson p))
          = some p := by
        show decodeDeliveryFields (deliveryFieldsJson p) {} = some p
        exact decodeDeliveryFields_roundtrip p
          (snsDeliveryPolicyUnmarshal_inRange hu)
      simp only [snsNormalizeDeliveryPolicy, parseJson_marshal, hput]

/-- Witness for `C4_normalize_idempotent` at a concrete policy text:
normalizing a whitespace-laden `guaranteed: true` policy yields its compact
form, and the theorem then gives that the compact form normalizes to
itself. -/
theorem C4_witness :
    snsNormalizeDeliveryPolicy "\x7b \"guaranteed\": true \x7d"
        = some "\x7b\"guaranteed\":true\x7d" ∧
    snsNormalizeDeliveryPolicy "\x7b\"guaranteed\":true\x7d"
        = some "\x7b\"guaranteed\":true\x7d" :=
  ⟨rfl, C4_normalize_idempotent "\x7b \"guaranteed\": true \x7d"
    "\x7b\"guaranteed\":true\x7d" rfl⟩

end TfAws
